import Mathlib

/-!
# scrip: resolution, pagination and stream reconstruction

A shallow embedding of `main.go` of psylo-dev/scrip.

Conventions of the embedding.

* A Go `[]byte` is a `List Nat` (`Bytes`), one number per byte.  A sub-slice that is kept
  while its buffer is written again is a `View` (offset and length) into that buffer.  A Go `string` that is
  decoded from JSON or written as a literal is a Lean `String`; when such a string becomes
  a request URI it is handed to the transport as its UTF-8 bytes (`utf8`).
* Everything the program does to the outside is an `Event` appended to `World.trace`:
  one `http` event per call of `HostClient.Do`, and one event per file-system call, log
  line or goroutine launch.  What the outside answers is given by the oracles of the
  `World`, which may depend on the request and on the number of events so far, so a
  world describes an arbitrary deterministic environment.
* A Go function with an `error` result returns `Except Error _` (or `Option Error` when it
  has no other result) together with the world after the call.
* `json.Unmarshal` belongs to a library and is a parameter `unmarshal`: given the body
  and the value decoded into, it fails or gives the value after decoding.
* Loops that the source does not bound (`Paginated.Proceed`, the page loop of
  `downloadUser`) take a fuel argument and return `none` when it runs out.
-/

namespace Scrip

/-! ## Data model (main.go 58-122) -/

abbrev Bytes := List Nat

/-- UTF-8 bytes of a Go string. -/
def utf8 (s : String) : Bytes := (s.data.flatMap String.utf8EncodeChar).map UInt8.toNat

structure User where
  Username : String
  Kind : String
  Permalink : String
  ID : Int
  Tracks : Int
  deriving DecidableEq, Repr

abbrev Protocol := String

def ProtocolHLS : Protocol := "hls"

def ProtocolProgressive : Protocol := "progressive"

structure Format where
  Protocol : Protocol
  MimeType : String
  deriving DecidableEq, Repr

structure Transcoding where
  URL : String
  Preset : String
  Format : Format
  Quality : String
  deriving DecidableEq, Repr

structure Media where
  Transcodings : List Transcoding
  deriving DecidableEq, Repr

abbrev TrackPolicy := String

def PolicyBlock : TrackPolicy := "BLOCK"

structure Track where
  Artwork : String
  CreatedAt : String
  Genre : String
  Permalink : String
  Kind : String
  Title : String
  Media : Media
  Authorization : String
  Author : User
  Policy : TrackPolicy
  ID : Int
  deriving DecidableEq, Repr

structure Playlist where
  Permalink : String
  Tracks : List Track
  Kind : String
  deriving DecidableEq, Repr

structure MissingTrack where
  ID : Int
  Index : Nat
  deriving DecidableEq, Repr

structure Stream where
  URL : String
  deriving DecidableEq, Repr

structure Paginated (T : Type) where
  Collection : List T
  Next : String
  deriving DecidableEq, Repr

/-- The zero values the source declares with `var`. -/
def User.zero : User := ⟨"", "", "", 0, 0⟩

def Track.zero : Track := ⟨"", "", "", "", "", "", ⟨[]⟩, "", User.zero, "", 0⟩

def Playlist.zero : Playlist := ⟨"", [], ""⟩

def Stream.zero : Stream := ⟨""⟩

/-! ## Errors -/

/-- The four fasthttp errors `doWithRetry` compares against by identity. -/
inductive Sentinel where
  | ErrTimeout
  | ErrDialTimeout
  | ErrTLSHandshakeTimeout
  | ErrConnectionClosed
  deriving DecidableEq, Repr

/-- A transport error, as far as `doWithRetry` looks at it: which fasthttp sentinel it is
(if any), what `os.IsTimeout` and `errors.Is(err, syscall.EPIPE)` say, and `err.Error()`. -/
structure TransportError where
  sentinel : Option Sentinel
  osTimeout : Bool
  epipe : Bool
  message : String
  deriving DecidableEq, Repr

/-- The errors the program returns. -/
inductive Error where
  | transport (e : TransportError)
  | statusCode (op : String) (code : Nat)
  | unmarshal (msg : String)
  | ErrKindNotCorrect
  | ErrIncompatibleStream
  | ErrNoURL
  | os (msg : String)
  | addMetadata (cause : Error) (wrote : Int)
  | writeTrack (cause : Error) (wrote : Int)
  | runtimePanic (msg : String)
  deriving DecidableEq, Repr

/-! ## The outside world -/

/-- The three connection pools `httpc`, `hlshttpc`, `imghttpc` (main.go 37-56). -/
inductive Host where
  | api
  | hlscdn
  | imgcdn
  deriving DecidableEq, Repr

/-- A response buffer: status code, raw body, the decoded body and the `Content-Type`
header.  `uncompressed` is `some d` when the body is encoded and `BodyUncompressed`
decodes it into a buffer `d` of its own; it is `none` when the bytes the source reads are
the body buffer itself: either there is no `Content-Encoding`, and `BodyUncompressed`
returns the body, or `BodyUncompressed` fails and the source falls back to `Body()`. -/
structure Response where
  status : Nat
  body : Bytes
  uncompressed : Option Bytes
  contentType : String
  deriving DecidableEq, Repr

/-- A freshly acquired response buffer. -/
def Response.fresh : Response := ⟨200, [], none, ""⟩

/-- The bytes the source reads after a fetch (`data` in main.go 154-157 and its copies):
the decoded body, or else the body buffer. -/
def Response.data (r : Response) : Bytes :=
  match r.uncompressed with
  | some d => d
  | none => r.body

/-- The ID3 tag `makeMetadata` builds before writing it. -/
structure Tag where
  artist : String
  genre : Option String
  title : String
  picture : Option (String × Bytes)
  deriving DecidableEq, Repr

inductive Event where
  | http (host : Host) (uri : Bytes)
  | mkdir (dir : String)
  | go (basePath : String) (track : Track)
  | log (msg : String)
  | print (msg : String)
  | openFile (path : String)
  | writeTag (path : String) (tag : Tag)
  | write (path : String) (data : Bytes)
  | close (path : String)
  deriving DecidableEq, Repr

/-- The outside world.  Each oracle is asked with the number of events so far.  The oracle
`bufferReused n` says whether the transport call that is event `n` read its response body
into the array that held the body of the previous response of the same `Response` object:
fasthttp keeps the body in a buffer that a later `Do` on the same object fills again, and
a slice obtained from `Body()` before that call then shows the new bytes.  A call that
fails is taken to leave the buffer as it is. -/
structure World where
  transport : Nat → Host → Bytes → Except TransportError Response
  mkdirReply : Nat → String → Option Error
  openReply : Nat → String → Option Error
  tagReply : Nat → String → Tag → Int × Option Error
  writeReply : Nat → String → Bytes → Int × Option Error
  closeReply : Nat → String → Option Error
  bufferReused : Nat → Bool
  trace : List Event

/-- Append an event to the trace. -/
def World.emit (w : World) (e : Event) : World := { w with trace := w.trace ++ [e] }

/-- One call of `HostClient.Do`. -/
def World.Do (w : World) (host : Host) (uri : Bytes) :
    Except TransportError Response × World :=
  (w.transport w.trace.length host uri, w.emit (.http host uri))

/-- The outcome the transport gives to the `i`-th further attempt (counted from 0) at
`uri`, when nothing else happens in between. -/
def World.outcome (w : World) (host : Host) (uri : Bytes) (i : Nat) :
    Except TransportError Response :=
  w.transport (w.trace.length + i) host uri

def log (msg : String) (w : World) : World := w.emit (.log msg)

/-- What the source takes from outside itself: the client id (the global `cid`, set once
in `main`), `url.QueryEscape`, `json.Unmarshal` at each type it is used at, and `fmtsize`,
whose result is a floating-point rendering that only appears in log lines (the two
error texts that quote it carry the byte count instead).

Two more fields describe the Go run time.  `sharedTracks p tracks` is what the tracks
appended so far show once a page has been decoded, `p` being the page after the call:
`json.Unmarshal` decodes into the elements `p.Collection` already has, and the copies
appended to `tracks` share the arrays of their renditions with those elements.  `maxCap` is
the largest capacity `make([]Track, 0, n)` can allocate. -/
structure Env where
  cid : String
  QueryEscape : String → String
  unmarshalTrack : Bytes → Track → Except Error Track
  unmarshalPlaylist : Bytes → Playlist → Except Error Playlist
  unmarshalUser : Bytes → User → Except Error User
  unmarshalTracks : Bytes → List Track → Except Error (List Track)
  unmarshalStream : Bytes → Stream → Except Error Stream
  unmarshalPage : Bytes → Paginated Track → Except Error (Paginated Track)
  fmtsize : Int → String
  sharedTracks : Paginated Track → List Track → List Track
  maxCap : Int

/-! ## Constants (main.go 23-26) -/

def api : String := "api-v2.soundcloud.com"

def hlscdn : String := "cf-hls-media.sndcdn.com"

def imgcdn : String := "i1.sndcdn.com"

/-! ## `doWithRetry` (main.go 384-403) -/

/-- The condition under which `doWithRetry` returns the error at once (main.go 391-397). -/
def fatal (err : TransportError) : Bool :=
  err.sentinel != some .ErrTimeout &&
  err.sentinel != some .ErrDialTimeout &&
  err.sentinel != some .ErrTLSHandshakeTimeout &&
  err.sentinel != some .ErrConnectionClosed &&
  !err.osTimeout &&
  !err.epipe &&
  err.message != "timeout"

/-- The `for` loop of `doWithRetry` with `k` iterations left; `last` is the named result
`err` together with the response buffer. -/
def doWithRetryLoop (host : Host) (uri : Bytes) :
    Nat → Except TransportError Response → World → Except TransportError Response × World
  | 0, last, w => (last, w)
  | k + 1, _, w =>
    match w.Do host uri with
    | (.ok resp, w1) => (.ok resp, w1)
    | (.error err, w1) =>
      if fatal err then (.error err, w1)
      else doWithRetryLoop host uri k (.error err) w1

def doWithRetry (host : Host) (uri : Bytes) (w : World) :
    Except TransportError Response × World :=
  doWithRetryLoop host uri 10 (.ok Response.fresh) w

/-! ## `Media.SelectCompatible` (main.go 124-132) -/

/-- The test of main.go 126. -/
def compatible (t : Transcoding) : Bool :=
  t.Format.Protocol == ProtocolHLS && t.Format.MimeType == "audio/mpeg"

def selectLoop : List Transcoding → Option Transcoding
  | [] => none
  | t :: rest => if compatible t then some t else selectLoop rest

def Media.SelectCompatible (m : Media) : Option Transcoding :=
  selectLoop m.Transcodings

/-! ## `Transcoding.GetStream` (main.go 134-170) -/

def Transcoding.GetStream (env : Env) (tr : Transcoding) (authorization : String) (w : World) :
    Except Error String × World :=
  match doWithRetry .api
      (utf8 (tr.URL ++ "?client_id=" ++ env.cid ++ "&track_authorization=" ++ authorization)) w with
  | (.error err, w1) => (.error (.transport err), w1)
  | (.ok resp, w1) =>
    if resp.status != 200 then (.error (.statusCode "getstream" resp.status), w1)
    else
      match env.unmarshalStream resp.data Stream.zero with
      | .error err => (.error err, w1)
      | .ok s => if s.URL == "" then (.error .ErrNoURL, w1) else (.ok s.URL, w1)

/-! ## `Track.DownloadImage` (main.go 172-195) -/

/-- The library call `strings.Replace(s, old, new, 1)` for a non-empty `old`. -/
def replaceFirst (old new : List Char) : List Char → List Char
  | [] => []
  | c :: cs =>
    if old.isPrefixOf (c :: cs) then new ++ (c :: cs).drop old.length
    else c :: replaceFirst old new cs

def Track.DownloadImage (tr : Track) (w : World) : Except Error (Bytes × String) × World :=
  let artwork := String.mk (replaceFirst "-large.".data "-t500x500.".data tr.Artwork.data)
  match doWithRetry .imgcdn (utf8 artwork) w with
  | (.error err, w1) => (.error (.transport err), w1)
  | (.ok resp, w1) => (.ok (resp.data, resp.contentType), w1)

/-! ## `Paginated.Proceed` (main.go 202-242) -/

def Paginated.Proceed {T : Type} (env : Env)
    (unmarshal : Bytes → Paginated T → Except Error (Paginated T)) :
    Nat → Bool → Paginated T → World → Option (Except Error (Paginated T) × World)
  | 0, _, _, _ => none
  | fuel + 1, shouldUnfold, p, w =>
    let oldNext := p.Next
    match doWithRetry .api (utf8 (p.Next ++ "&client_id=" ++ env.cid)) w with
    | (.error err, w1) => some (.error (.transport err), w1)
    | (.ok resp, w1) =>
      if resp.status != 200 then
        some (.error (.statusCode "paginated.proceed" resp.status), w1)
      else
        match unmarshal resp.data p with
        | .error err => some (.error err, w1)
        | .ok p1 =>
          let p2 := if p1.Next == oldNext then { p1 with Next := "" } else p1
          if shouldUnfold && p2.Collection.length == 0 && p2.Next != "" then
            Paginated.Proceed env unmarshal fuel true p2 w1
          else some (.ok p2, w1)

/-! ## `downloadHLS` (main.go 258-306) -/

/-- A sub-slice of a byte buffer, as `bytes.Split` returns it: where it starts in the
buffer and how long it is.  It holds no bytes of its own. -/
structure View where
  off : Nat
  len : Nat
  deriving DecidableEq, Repr

/-- The bytes a sub-slice shows when the buffer holds `mem`. -/
def View.read (v : View) (mem : Bytes) : Bytes := (mem.drop v.off).take v.len

/-- The library call `bytes.Split(data, []byte{sep})`: the pieces of `data` between the
separators, as sub-slices of `data`.  `off` and `len` are the start and the length so far
of the piece being scanned. -/
def splitViews (sep : Nat) : Bytes → Nat → Nat → List View
  | [], off, len => [⟨off, len⟩]
  | b :: rest, off, len =>
    if b = sep then ⟨off, len⟩ :: splitViews sep rest (off + len + 1) 0
    else splitViews sep rest off (len + 1)

/-- The first loop of `downloadHLS` (main.go 279-286), run while the buffer holds `data`;
35 is `#`. -/
def partsLoop (data : Bytes) : List View → List View → List View
  | [], parts => parts
  | s :: rest, parts =>
    if s.len == 0 || (s.read data).head? == some 35 then partsLoop data rest parts
    else partsLoop data rest (parts ++ [s])

/-- What a buffer that held `mem` shows after a response body `body` has been read into
the same array: the new body from the start, and behind it what was there before. -/
def overwrite (mem body : Bytes) : Bytes := (body ++ mem.drop body.length).take mem.length

/-- The second loop of `downloadHLS` (main.go 288-303).  `mem` is what the buffer of the
manifest holds by now; `aliased` says whether that buffer is the body buffer of `resp`,
which every fetch of the loop fills again.  Each part is read from the buffer when its
turn comes (`req.SetRequestURIBytes(part)`). -/
def segmentLoop (aliased : Bool) : List View → Bytes → Bytes → World → Except Error Bytes × World
  | [], _, result, w => (.ok result, w)
  | part :: rest, mem, result, w =>
    match doWithRetry .hlscdn (part.read mem) w with
    | (.error err, w1) => (.error (.transport err), w1)
    | (.ok resp, w1) =>
      let mem1 :=
        if aliased && w1.bufferReused (w1.trace.length - 1) then overwrite mem resp.body
        else mem
      segmentLoop aliased rest mem1 (result ++ resp.data) w1

/-- The function `downloadHLS`.  The parts are sub-slices of `data`; when `data` is the
body buffer of `resp` (no decoded copy was made), the segment fetches, which reuse
`resp`, write into the buffer the parts point into. -/
def downloadHLS (url : String) (w : World) : Except Error Bytes × World :=
  match doWithRetry .hlscdn (utf8 url) w with
  | (.error err, w1) => (.error (.transport err), w1)
  | (.ok resp, w1) =>
    let data := resp.data
    let parts := partsLoop data (splitViews 10 data 0 0) []
    segmentLoop resp.uncompressed.isNone parts data [] w1

/-! ## `makeMetadata` (main.go 308-328) -/

def makeMetadata (fd : String) (track : Track) (w : World) : (Int × Option Error) × World :=
  let tag : Tag := ⟨track.Author.Username, none, track.Title, none⟩
  let tag := if track.Genre != "" then { tag with genre := some track.Genre } else tag
  if track.Artwork != "" then
    match track.DownloadImage w with
    | (.error err, w1) => ((0, some err), w1)
    | (.ok (data, mime), w1) =>
      let tag := { tag with picture := some (mime, data) }
      (w1.tagReply w1.trace.length fd tag, w1.emit (.writeTag fd tag))
  else (w.tagReply w.trace.length fd tag, w.emit (.writeTag fd tag))

/-! ## `resolve`, `getTracks`, `joinMissingTracks`, `getMissingTracks` (main.go 405-477) -/

def resolve {α : Type} (env : Env) (unmarshal : Bytes → α → Except Error α)
    (path : String) (out : α) (w : World) : Except Error α × World :=
  match doWithRetry .api
      (utf8 ("https://" ++ api ++ "/resolve?url=https%3A%2F%2Fsoundcloud.com%2F" ++
        env.QueryEscape path ++ "&client_id=" ++ env.cid)) w with
  | (.error err, w1) => (.error (.transport err), w1)
  | (.ok resp, w1) =>
    if resp.status != 200 then (.error (.statusCode "resolve" resp.status), w1)
    else (unmarshal resp.data out, w1)

/-- On a decoding error the source returns the error together with whatever was decoded;
its only caller drops that value, and so does the embedding. -/
def getTracks (env : Env) (ids : String) (w : World) : Except Error (List Track) × World :=
  match doWithRetry .api
      (utf8 ("https://" ++ api ++ "/tracks?ids=" ++ ids ++ "&client_id=" ++ env.cid)) w with
  | (.error err, w1) => (.error (.transport err), w1)
  | (.ok resp, w1) => (env.unmarshalTracks resp.data [], w1)

/-- The loop of `joinMissingTracks`; `n` is `len(missing)`, `i` the loop index. -/
def joinLoop (n : Nat) : List MissingTrack → Nat → String → String
  | [], _, st => st
  | track :: rest, i, st =>
    let st := st ++ toString track.ID
    let st := if (i : Int) != (n : Int) - 1 then st ++ "," else st
    joinLoop n rest (i + 1) st

def joinMissingTracks (missing : List MissingTrack) : String :=
  joinLoop missing.length missing 0 ""

def getMissingTracks (env : Env) (missing : List MissingTrack) (w : World) :
    (Except Error (List Track) × List MissingTrack) × World :=
  let next := if missing.length > 50 then missing.drop 50 else []
  let missing := if missing.length > 50 then missing.take 50 else missing
  match getTracks env (joinMissingTracks missing) w with
  | (res, w1) => ((res, next), w1)

/-! ## `_download`, `download` (main.go 479-522) -/

def _download (env : Env) (basePath : String) (t : Track) (w : World) : Option Error × World :=
  match t.Media.SelectCompatible with
  | none => (some .ErrIncompatibleStream, w)
  | some tr =>
    match tr.GetStream env t.Authorization w with
    | (.error err, w1) => (some err, w1)
    | (.ok stream, w1) =>
      match downloadHLS stream w1 with
      | (.error err, w2) => (some err, w2)
      | (.ok data, w2) =>
        let fd := basePath ++ t.Permalink ++ ".mp3"
        match w2.openReply w2.trace.length fd, w2.emit (.openFile fd) with
        | some err, w3 => (some err, w3)
        | none, w3 =>
          match makeMetadata fd t w3 with
          | ((n1, some err), w4) => (some (.addMetadata err n1), w4)
          | ((n1, none), w4) =>
            match w4.writeReply w4.trace.length fd data, w4.emit (.write fd data) with
            | (n, some err), w5 => (some (.writeTrack err n), w5)
            | (n, none), w5 =>
              let w6 := log ("Wrote " ++ env.fmtsize (n1 + n) ++ " to " ++ t.Permalink ++ ".mp3\n") w5
              (w6.closeReply w6.trace.length fd, w6.emit (.close fd))

/-- The loop of `download` with `k` iterations left; `last` is the named result `err`. -/
def downloadLoop (env : Env) (basePath : String) (t : Track) :
    Nat → Option Error → World → Option Error × World
  | 0, last, w => (last, w)
  | k + 1, _, w =>
    match _download env basePath t w with
    | (none, w1) => (none, w1)
    | (some err, w1) => downloadLoop env basePath t k (some err) w1

def download (env : Env) (basePath : String) (t : Track) (w : World) : Option Error × World :=
  downloadLoop env basePath t 5 none w

/-! ## `downloadByPath`, `downloadTracks`, `downloadPlaylist`, `downloadUser` (main.go 524-636) -/

def downloadByPath (env : Env) (basePath : String) (path : String) (w : World) :
    Option Error × World :=
  match resolve env env.unmarshalTrack path Track.zero w with
  | (.error err, w1) => (some err, w1)
  | (.ok t, w1) =>
    if t.Kind != "track" then (some .ErrKindNotCorrect, w1)
    else download env basePath t w1

/-- The launch loop of `downloadTracks` (main.go 546-555).  The goroutines run
concurrently with each other; the embedding records each launch and does not run them. -/
def launchLoop (dir : String) : List Track → World → World
  | [], w => w
  | track :: rest, w => launchLoop dir rest (w.emit (.go (dir ++ "/") track))

def downloadTracks (dir : String) (tracks : List Track) (w : World) : Option Error × World :=
  let w1 := log ("Downloading " ++ toString tracks.length ++ " tracks\n") w
  match w1.mkdirReply w1.trace.length dir, w1.emit (.mkdir dir) with
  | some err, w2 => (some err, w2)
  | none, w2 => (none, launchLoop dir tracks w2)

/-- The partition loop of `downloadPlaylist` (main.go 575-581); `i` is the loop index. -/
def partitionLoop : List Track → Nat → List Track → List MissingTrack →
    List Track × List MissingTrack
  | [], _, tracks, missing => (tracks, missing)
  | track :: rest, i, tracks, missing =>
    if track.Title == "" then partitionLoop rest (i + 1) tracks (missing ++ [⟨track.ID, i⟩])
    else partitionLoop rest (i + 1) (tracks ++ [track]) missing

/-- The backfill loop of `downloadPlaylist` (main.go 584-596). -/
def backfillLoop (env : Env) (missing : List MissingTrack) (tracks : List Track) (w : World) :
    Except Error (List Track) × World :=
  match h : getMissingTracks env missing w with
  | ((.error err, _), w1) => (.error err, w1)
  | ((.ok res, next), w1) =>
    if hz : next.length = 0 then (.ok (tracks ++ res), w1)
    else backfillLoop env next (tracks ++ res) w1
termination_by missing.length
decreasing_by
  have hn : (getMissingTracks env missing w).1.2 = next := by rw [h]
  have hd : (getMissingTracks env missing w).1.2 =
      if missing.length > 50 then missing.drop 50 else [] := rfl
  rw [hd] at hn
  subst hn
  by_cases hlen : missing.length > 50
  · simp only [hlen, if_true, List.length_drop]
    omega
  · simp [hlen] at hz

/-- The backfill of `downloadPlaylist` (main.go 583-597): the loop runs only when
`len(missing) != 0`. -/
def backfill (env : Env) (missing : List MissingTrack) (tracks : List Track) (w : World) :
    Except Error (List Track) × World :=
  if missing.length != 0 then backfillLoop env missing tracks w else (.ok tracks, w)

def downloadPlaylist (env : Env) (path : String) (w : World) : Option Error × World :=
  match resolve env env.unmarshalPlaylist path Playlist.zero w with
  | (.error err, w1) => (some err, w1)
  | (.ok p, w1) =>
    if p.Kind != "playlist" then (some .ErrKindNotCorrect, w1)
    else
      match partitionLoop p.Tracks 0 [] [] with
      | (tracks, missing) =>
        match backfill env missing tracks w1 with
        | (.error err, w2) => (some err, w2)
        | (.ok tracks, w2) =>
          if tracks.length == 0 then (none, log "No tracks in playlist\n" w2)
          else downloadTracks p.Permalink tracks w2

/-- The page loop of `downloadUser` (main.go 621-628); the source runs it at
`Paginated[Track]` with `json.Unmarshal`.  `shared` gives what the tracks appended so far
show after a page has been decoded into the arrays they share. -/
def pageLoop {T : Type} (env : Env)
    (unmarshal : Bytes → Paginated T → Except Error (Paginated T))
    (shared : Paginated T → List T → List T) :
    Nat → Paginated T → List T → World → Option (Except Error (List T) × World)
  | 0, _, _, _ => none
  | fuel + 1, p, tracks, w =>
    if p.Next != "" then
      match p.Proceed env unmarshal (fuel + 1) true w with
      | none => none
      | some (.error err, w1) => some (.error err, w1)
      | some (.ok p1, w1) =>
        pageLoop env unmarshal shared fuel p1 (shared p1 tracks ++ p1.Collection) w1
    else some (.ok tracks, w)

/-- The function `downloadUser`; `make([]Track, 0, u.Tracks)` panics at run time when the
declared track count is negative or too large to allocate. -/
def downloadUser (env : Env) (fuel : Nat) (path : String) (w : World) :
    Option (Option Error × World) :=
  match resolve env env.unmarshalUser path User.zero w with
  | (.error err, w1) => some (some err, w1)
  | (.ok u, w1) =>
    if u.Kind != "user" then some (some .ErrKindNotCorrect, w1)
    else if u.Tracks < 0 || u.Tracks > env.maxCap then
      some (some (.runtimePanic "makeslice: cap out of range"), w1)
    else
      let p : Paginated Track :=
        ⟨[], "https://" ++ api ++ "/users/" ++ toString u.ID ++
          "/tracks?limit=80000&client_id" ++ env.cid⟩
      match pageLoop env env.unmarshalPage env.sharedTracks fuel p [] w1 with
      | none => none
      | some (.error err, w2) => some (some err, w2)
      | some (.ok tracks, w2) =>
        if tracks.length == 0 then some (none, w2.emit (.print "User has no tracks\n"))
        else some (downloadTracks u.Permalink tracks w2)

/-! ## Path normalisation in `main` (main.go 659-662) -/

/-- Go `s[i:]`: `none` is the run-time panic "slice bounds out of range". -/
def sliceFrom (s : Bytes) (i : Int) : Option Bytes :=
  if 0 ≤ i ∧ i ≤ s.length then some (s.drop i.toNat) else none

/-- Go `s[:j]`: `none` is the run-time panic "slice bounds out of range". -/
def sliceTo (s : Bytes) (j : Int) : Option Bytes :=
  if 0 ≤ j ∧ j ≤ s.length then some (s.take j.toNat) else none

/-- Go `s[i]`: `none` is the run-time panic "index out of range". -/
def byteAt (s : Bytes) (i : Int) : Option Nat :=
  if 0 ≤ i ∧ i < s.length then s.get? i.toNat else none

/-- Lines 659-662 of `main`, applied to `parsed.Path`; 47 is `/`. -/
def mainPath (parsedPath : Bytes) : Option Bytes :=
  match sliceFrom parsedPath 1 with
  | none => none
  | some path =>
    match byteAt path ((path.length : Int) - 1) with
    | none => none
    | some last =>
      if last == 47 then sliceTo path ((path.length : Int) - 1)
      else some path

/-! ## Vocabulary of the statements -/

/-- An outcome of one attempt after which `doWithRetry` tries again: a transport error that
is not fatal. -/
def retryable (o : Except TransportError Response) : Bool :=
  match o with
  | .ok _ => false
  | .error err => !fatal err

/-- The world `w` after the further events `evs`. -/
def World.after (w : World) (evs : List Event) : World := { w with trace := w.trace ++ evs }

/-- A world that answers nothing but a timeout on the first three transport calls and a
response with body `[1, 2]` from the fourth call on. -/
def retryWorld : World where
  transport := fun n _ _ =>
    if n < 3 then .error ⟨some .ErrTimeout, true, false, "timeout"⟩
    else .ok ⟨200, [1, 2], none, ""⟩
  mkdirReply := fun _ _ => none
  openReply := fun _ _ => none
  tagReply := fun _ _ _ => (0, none)
  writeReply := fun _ _ _ => (0, none)
  closeReply := fun _ _ => none
  bufferReused := fun _ => false
  trace := []

/-- The pieces of `data` between the separators, as byte strings. -/
def bytesSplit (sep : Nat) : Bytes → List Bytes
  | [] => [[]]
  | b :: rest =>
    if b = sep then [] :: bytesSplit sep rest
    else
      match bytesSplit sep rest with
      | [] => [[b]]
      | l :: ls => (b :: l) :: ls

/-- The lines of a manifest that name a segment, in the words of the specification: the
pieces between newlines (byte 10) that are non-empty and do not begin with `#` (byte 35). -/
def segmentLines (manifest : Bytes) : List Bytes :=
  (bytesSplit 10 manifest).filter (fun s => decide (s ≠ [] ∧ s.head? ≠ some 35))

/-- The manifest of the second scenario of the specification, with URLs on the media
host. -/
def sampleManifest : Bytes :=
  utf8 "#comment\nhttps://cf-hls-media.sndcdn.com/seg1\n\nhttps://cf-hls-media.sndcdn.com/seg2"

/-- Payloads of the two segments of `sampleManifest`. -/
def samplePayload (uri : Bytes) : Bytes :=
  if uri = utf8 "https://cf-hls-media.sndcdn.com/seg1" then [1, 2, 3]
  else if uri = utf8 "https://cf-hls-media.sndcdn.com/seg2" then [4, 5]
  else []

/-- A world in which the manifest URL is answered with `sampleManifest`, gzip-encoded, and
any other URL with its `samplePayload`, without encoding; every call reuses the body
buffer. -/
def hlsWorld : World where
  transport := fun _ _ uri =>
    if uri = utf8 "https://cf-hls-media.sndcdn.com/playlist.m3u8" then
      .ok ⟨200, [31, 139, 8], some sampleManifest, ""⟩
    else .ok ⟨200, samplePayload uri, none, ""⟩
  mkdirReply := fun _ _ => none
  openReply := fun _ _ => none
  tagReply := fun _ _ _ => (0, none)
  writeReply := fun _ _ _ => (0, none)
  closeReply := fun _ _ => none
  bufferReused := fun _ => true
  trace := []

/-- A manifest of two lines, the segments `/a` and `/b`. -/
def twoLineManifest : Bytes :=
  utf8 "https://cf-hls-media.sndcdn.com/a\nhttps://cf-hls-media.sndcdn.com/b"

/-- A payload for the segment `/a`: as long as `twoLineManifest`, with the byte `c` where
the manifest has its last byte `b`. -/
def payloadA : Bytes :=
  utf8 "https://cf-hls-media.sndcdn.com/a\nhttps://cf-hls-media.sndcdn.com/c"

/-- A world in which every fetch succeeds at once, nothing is encoded, and every call
reads its body into the buffer of the call before: `/m` is answered with
`twoLineManifest`, `/a` with `payloadA`, `/b` with the byte `B` and `/c` with the
byte `C`. -/
def overwriteWorld : World where
  transport := fun _ _ uri =>
    if uri = utf8 "https://cf-hls-media.sndcdn.com/m" then .ok ⟨200, twoLineManifest, none, ""⟩
    else if uri = utf8 "https://cf-hls-media.sndcdn.com/a" then .ok ⟨200, payloadA, none, ""⟩
    else if uri = utf8 "https://cf-hls-media.sndcdn.com/b" then .ok ⟨200, [66], none, ""⟩
    else if uri = utf8 "https://cf-hls-media.sndcdn.com/c" then .ok ⟨200, [67], none, ""⟩
    else .ok ⟨404, [], none, ""⟩
  mkdirReply := fun _ _ => none
  openReply := fun _ _ => none
  tagReply := fun _ _ _ => (0, none)
  writeReply := fun _ _ _ => (0, none)
  closeReply := fun _ _ => none
  bufferReused := fun _ => true
  trace := []

/-- The batches of a list of references, in the words of the specification: while more
than 50 remain, the first 50; then the rest. -/
def batches (missing : List MissingTrack) : List (List MissingTrack) :=
  if missing.length > 50 then missing.take 50 :: batches (missing.drop 50) else [missing]
termination_by missing.length
decreasing_by
  simp only [List.length_drop]
  omega

/-- The id list of a batch request, in the words of the specification: the decimal ids of
the references of the batch, in order, joined by commas. -/
def commaIds (batch : List MissingTrack) : String :=
  ",".intercalate (batch.map (fun m => toString m.ID))

/-- The request of the batch fetch for the references `batch`, spelled out. -/
def tracksURI (env : Env) (batch : List MissingTrack) : Bytes :=
  utf8 ("https://api-v2.soundcloud.com/tracks?ids=" ++ commaIds batch ++
    "&client_id=" ++ env.cid)

/-- Fetching the given batches one after the other, in the words of the specification: one
`getTracks` call per batch on its comma-joined ids, stopping at the first call that fails;
the result lists the tracks each call returned. -/
def fetchBatches (env : Env) :
    List (List MissingTrack) → World → Except Error (List (List Track)) × World
  | [], w => (.ok [], w)
  | b :: rest, w =>
    match getTracks env (commaIds b) w with
    | (.error err, w1) => (.error err, w1)
    | (.ok res, w1) =>
      match fetchBatches env rest w1 with
      | (.error err, w2) => (.error err, w2)
      | (.ok rs, w2) => (.ok (res :: rs), w2)

/-- Sixty references, with ids 1000 to 1059. -/
def sixtyMissing : List MissingTrack := (List.range 60).map (fun (i : Nat) => ⟨1000 + (i : Int), i⟩)

/-- The references of the entries with an empty title, in the words of the specification:
the numeric id of each such entry together with its position in the playlist, in order. -/
def missingFrom (i : Nat) (tracks : List Track) : List MissingTrack :=
  ((tracks.enumFrom i).filter (fun e => e.2.Title == "")).map (fun e => ⟨e.2.ID, e.1⟩)

def missingOf (tracks : List Track) : List MissingTrack := missingFrom 0 tracks

/-! ## Sample environments for the witnesses -/

def sampleTrack (id : Int) (title : String) : Track :=
  { Track.zero with Kind := "track", Title := title, Permalink := title, ID := id }

/-- A world in which every transport call succeeds with status 200; the body holds the
number of events before the call. -/
def okWorld : World where
  transport := fun n _ _ => .ok ⟨200, [n], none, ""⟩
  mkdirReply := fun _ _ => none
  openReply := fun _ _ => none
  tagReply := fun _ _ _ => (0, none)
  writeReply := fun _ _ _ => (0, none)
  closeReply := fun _ _ => none
  bufferReused := fun _ => false
  trace := []

/-- Decoders for the witnesses: the playlist has the entries "one", an untitled entry with
id 2, and "three"; every batch fetch decodes to the one track "two"; the page decoded
from the first response is empty with the cursor "next", every later one holds the track
"nine" and no cursor.  `QueryEscape` writes `%2F` for a slash, which is all it has to do
on the sample paths, and decoding a page leaves the tracks appended before as they are. -/
def sampleEnv : Env where
  cid := "CID"
  QueryEscape := fun s =>
    String.mk (s.data.flatMap (fun c => if c = '/' then "%2F".data else [c]))
  unmarshalTrack := fun _ _ => .ok (sampleTrack 7 "seven")
  unmarshalPlaylist := fun _ _ =>
    .ok ⟨"mix", [sampleTrack 1 "one", sampleTrack 2 "", sampleTrack 3 "three"], "playlist"⟩
  unmarshalUser := fun _ _ => .ok ⟨"ann", "user", "ann", 5, 1⟩
  unmarshalTracks := fun _ _ => .ok [sampleTrack 2 "two"]
  unmarshalStream := fun _ _ => .ok ⟨"http://manifest"⟩
  unmarshalPage := fun data _ =>
    if data = [0] then .ok ⟨[], "next"⟩ else .ok ⟨[sampleTrack 9 "nine"], ""⟩
  fmtsize := fun n => toString n ++ " B"
  sharedTracks := fun _ tracks => tracks
  maxCap := 1000000

/-- The playlist `sampleEnv` decodes. -/
def samplePlaylist : Playlist :=
  ⟨"mix", [sampleTrack 1 "one", sampleTrack 2 "", sampleTrack 3 "three"], "playlist"⟩

/-- The request URI of `resolve` (main.go 409). -/
def resolveURI (env : Env) (path : String) : Bytes :=
  utf8 ("https://" ++ api ++ "/resolve?url=https%3A%2F%2Fsoundcloud.com%2F" ++
    env.QueryEscape path ++ "&client_id=" ++ env.cid)

/-- The request URI of `Paginated.Proceed` for the cursor `next` (main.go 207). -/
def pageURI (env : Env) (next : String) : Bytes := utf8 (next ++ "&client_id=" ++ env.cid)

/-- The stalled-cursor step of `Paginated.Proceed` (main.go 233-235) on the decoded page
`p1`, where `oldNext` is the cursor that was fetched. -/
def clearStalled {T : Type} (oldNext : String) (p1 : Paginated T) : Paginated T :=
  if p1.Next == oldNext then { p1 with Next := "" } else p1

/-- Decoders whose every page is empty and repeats the cursor "again". -/
def echoEnv : Env :=
  { sampleEnv with unmarshalPage := fun _ _ => .ok ⟨[], "again"⟩ }

/-- Decoders that read a playlist out of a body that describes a track: the kind tag of
the decoded value is "track". -/
def trackEnv : Env :=
  { sampleEnv with unmarshalPlaylist := fun _ _ => .ok ⟨"song", [], "track"⟩ }

/-- A world in which every transport call succeeds with status 500 and the body `[]`. -/
def status500World : World where
  transport := fun _ _ _ => .ok ⟨500, utf8 "[]", none, "application/json"⟩
  mkdirReply := fun _ _ => none
  openReply := fun _ _ => none
  tagReply := fun _ _ _ => (0, none)
  writeReply := fun _ _ _ => (0, none)
  closeReply := fun _ _ => none
  bufferReused := fun _ => false
  trace := []

/-- Decoders that read the JSON text `[]` as the empty track list and reject any other
body. -/
def arrayEnv : Env :=
  { sampleEnv with
    unmarshalTracks := fun data _ =>
      if data = utf8 "[]" then .ok [] else .error (.unmarshal "unexpected token") }

/-! # Theorems -/

/-! ## Worlds -/

theorem World.after_nil (w : World) : w.after [] = w := by
  simp [World.after]

theorem World.after_after (w : World) (as bs : List Event) :
    (w.after as).after bs = w.after (as ++ bs) := by
  simp [World.after, List.append_assoc]

theorem World.emit_eq_after (w : World) (e : Event) : w.emit e = w.after [e] := rfl

theorem World.outcome_after (w : World) (evs : List Event) (host : Host) (uri : Bytes)
    (i : Nat) :
    (w.after evs).outcome host uri i = w.outcome host uri (evs.length + i) := by
  simp [World.outcome, World.after, Nat.add_assoc]

/-! ## doWithRetry -/

theorem doWithRetryLoop_step_ok (host : Host) (uri : Bytes) (k : Nat)
    (last : Except TransportError Response) (w : World)
    (h : retryable (w.outcome host uri 0) = false) :
    doWithRetryLoop host uri (k + 1) last w =
      (w.outcome host uri 0, w.after [.http host uri]) := by
  rw [doWithRetryLoop]
  unfold World.Do
  simp only [World.outcome, Nat.add_zero] at h ⊢
  rw [World.emit_eq_after]
  cases hx : w.transport w.trace.length host uri with
  | ok resp => rfl
  | error err =>
    rw [hx] at h
    have hf : fatal err = true := by simpa [retryable] using h
    simp [hf]

theorem doWithRetryLoop_step_retry (host : Host) (uri : Bytes) (k : Nat)
    (last : Except TransportError Response) (w : World)
    (h : retryable (w.outcome host uri 0) = true) :
    doWithRetryLoop host uri (k + 1) last w =
      doWithRetryLoop host uri k (w.outcome host uri 0) (w.after [.http host uri]) := by
  rw [doWithRetryLoop]
  unfold World.Do
  simp only [World.outcome, Nat.add_zero] at h ⊢
  rw [World.emit_eq_after]
  cases hx : w.transport w.trace.length host uri with
  | ok resp => rw [hx] at h; simp [retryable] at h
  | error err =>
    rw [hx] at h
    have hf : fatal err = false := by simpa [retryable] using h
    simp [hf]

/-- When the first `j - 1` outcomes are retryable and the `j`-th stops the loop, a loop
with at least `j` iterations left makes `j` attempts and returns the `j`-th outcome. -/
theorem doWithRetryLoop_stop (host : Host) (uri : Bytes) :
    ∀ (j k : Nat) (last : Except TransportError Response) (w : World),
      j + 1 ≤ k →
      (∀ i < j, retryable (w.outcome host uri i) = true) →
      retryable (w.outcome host uri j) = false →
      doWithRetryLoop host uri k last w =
        (w.outcome host uri j, w.after (List.replicate (j + 1) (.http host uri))) := by
  intro j
  induction j with
  | zero =>
    intro k last w hk _ hstop
    obtain ⟨k, rfl⟩ : ∃ k0, k = k0 + 1 := ⟨k - 1, by omega⟩
    exact doWithRetryLoop_step_ok host uri k last w hstop
  | succ j ih =>
    intro k last w hk hretry hstop
    obtain ⟨k, rfl⟩ : ∃ k0, k = k0 + 1 := ⟨k - 1, by omega⟩
    rw [doWithRetryLoop_step_retry host uri k last w (hretry 0 (by omega))]
    rw [ih k _ (w.after [.http host uri]) (by omega)]
    · rw [World.outcome_after, World.after_after, List.length_singleton, Nat.add_comm 1 j]
      rfl
    · intro i hi
      rw [World.outcome_after]
      simpa [Nat.add_comm] using hretry (i + 1) (by omega)
    · rw [World.outcome_after]
      simpa [Nat.add_comm] using hstop

/-- When all `k` outcomes are retryable, the loop makes `k` attempts and returns the last
outcome (or what it was given, when `k = 0`). -/
theorem doWithRetryLoop_exhaust (host : Host) (uri : Bytes) :
    ∀ (k : Nat) (last : Except TransportError Response) (w : World),
      (∀ i < k, retryable (w.outcome host uri i) = true) →
      doWithRetryLoop host uri k last w =
        (if k = 0 then last else w.outcome host uri (k - 1),
          w.after (List.replicate k (.http host uri))) := by
  intro k
  induction k with
  | zero =>
    intro last w _
    simp [doWithRetryLoop, World.after_nil]
  | succ k ih =>
    intro last w hretry
    rw [doWithRetryLoop_step_retry host uri k last w (hretry 0 (by omega))]
    rw [ih _ (w.after [.http host uri])]
    · rw [World.outcome_after, World.after_after]
      by_cases hk : k = 0
      · subst hk; simp
      · have : 1 + (k - 1) = k := by omega
        simp [hk, List.replicate_succ, this]
    · intro i hi
      rw [World.outcome_after]
      simpa [Nat.add_comm] using hretry (i + 1) (by omega)

/-- C3. Let the outcomes of the successive transport attempts be `w.outcome host uri 0`,
`w.outcome host uri 1`, ...; let the first `j - 1` of them be retryable errors and, when
`j ≤ 10`, let the `j`-th be a success or a fatal error (so `j` is the position of the
first such attempt; `j > 10` covers the case that the first ten are all retryable).  Then
`doWithRetry` makes exactly `min 10 j` attempts, all at the given request, and returns the
outcome of the last attempt it made. -/
theorem doWithRetry_attempts (w : World) (host : Host) (uri : Bytes) (j : Nat)
    (hj : 1 ≤ j)
    (hretry : ∀ i < j - 1, retryable (w.outcome host uri i) = true)
    (hstop : j ≤ 10 → retryable (w.outcome host uri (j - 1)) = false) :
    doWithRetry host uri w =
      (w.outcome host uri (min 10 j - 1),
        w.after (List.replicate (min 10 j) (.http host uri))) := by
  unfold doWithRetry
  by_cases h10 : j ≤ 10
  · have hm : min 10 j = j := by omega
    rw [hm]
    have := doWithRetryLoop_stop host uri (j - 1) 10 (.ok Response.fresh) w (by omega)
      hretry (hstop h10)
    rw [this]
    have hj1 : j - 1 + 1 = j := by omega
    rw [hj1]
  · have hm : min 10 j = 10 := by omega
    rw [hm]
    rw [doWithRetryLoop_exhaust host uri 10 _ w (fun i hi => hretry i (by omega))]
    simp

/-- C3, witness: timeouts on attempts 1 to 3 and success on attempt 4 give the successful
response after exactly four attempts. -/
theorem doWithRetry_attempts_witness :
    (∀ i < 4 - 1, retryable (retryWorld.outcome .api [104] i) = true) ∧
    retryable (retryWorld.outcome .api [104] (4 - 1)) = false ∧
    (doWithRetry .api [104] retryWorld).1 = .ok ⟨200, [1, 2], none, ""⟩ ∧
    (doWithRetry .api [104] retryWorld).2.trace = List.replicate 4 (.http .api [104]) := by
  have h1 : ∀ i < 4 - 1, retryable (retryWorld.outcome .api [104] i) = true := by decide
  have h2 : retryable (retryWorld.outcome .api [104] (4 - 1)) = false := by decide
  refine ⟨h1, h2, ?_, ?_⟩
  · rw [doWithRetry_attempts retryWorld .api [104] 4 (by decide) h1 (fun _ => h2)]
    rfl
  · rw [doWithRetry_attempts retryWorld .api [104] 4 (by decide) h1 (fun _ => h2)]
    rfl

/-! ## Media.SelectCompatible -/

theorem compatible_iff (t : Transcoding) :
    compatible t = true ↔ t.Format.Protocol = "hls" ∧ t.Format.MimeType = "audio/mpeg" := by
  simp [compatible, ProtocolHLS]

theorem selectLoop_some (ts : List Transcoding) (t : Transcoding) :
    selectLoop ts = some t ↔
      ∃ pre post, ts = pre ++ t :: post ∧ compatible t = true ∧
        ∀ x ∈ pre, compatible x = false := by
  induction ts with
  | nil => simp [selectLoop]
  | cons a rest ih =>
    unfold selectLoop
    by_cases ha : compatible a = true
    · simp only [ha, if_true, Option.some.injEq]
      constructor
      · rintro rfl
        exact ⟨[], rest, rfl, ha, by simp⟩
      · rintro ⟨pre, post, hsplit, _, hpre⟩
        cases pre with
        | nil => simp at hsplit; exact hsplit.1
        | cons b pre =>
          simp at hsplit
          have := hpre b (by simp)
          rw [← hsplit.1, ha] at this
          cases this
    · simp only [ha, Bool.false_eq_true, if_false]
      rw [ih]
      constructor
      · rintro ⟨pre, post, hsplit, ht, hpre⟩
        refine ⟨a :: pre, post, by simp [hsplit], ht, ?_⟩
        intro x hx
        rcases List.mem_cons.mp hx with rfl | hx
        · simpa using ha
        · exact hpre x hx
      · rintro ⟨pre, post, hsplit, ht, hpre⟩
        cases pre with
        | nil =>
          simp at hsplit
          rw [hsplit.1] at ha
          exact absurd ht ha
        | cons b pre =>
          simp at hsplit
          exact ⟨pre, post, hsplit.2, ht, fun x hx => hpre x (by simp [hx])⟩

theorem selectLoop_none (ts : List Transcoding) :
    selectLoop ts = none ↔ ∀ x ∈ ts, compatible x = false := by
  induction ts with
  | nil => simp [selectLoop]
  | cons a rest ih =>
    unfold selectLoop
    by_cases ha : compatible a = true
    · simp [ha]
    · simp only [ha, Bool.false_eq_true, if_false, ih, List.mem_cons, forall_eq_or_imp]
      simp at ha
      simp [ha]

/-- C4. `Media.SelectCompatible` returns `t` exactly when `t` stands in the list of
renditions at a place where its protocol is "hls" and its MIME type "audio/mpeg" and
every entry before it fails that test; it returns nothing exactly when no entry of the
list passes the test.  The result is a function of the list alone. -/
theorem SelectCompatible_first (m : Media) :
    (∀ t, m.SelectCompatible = some t ↔
      ∃ pre post, m.Transcodings = pre ++ t :: post ∧
        (t.Format.Protocol = "hls" ∧ t.Format.MimeType = "audio/mpeg") ∧
        ∀ x ∈ pre, ¬ (x.Format.Protocol = "hls" ∧ x.Format.MimeType = "audio/mpeg")) ∧
    (m.SelectCompatible = none ↔
      ∀ x ∈ m.Transcodings,
        ¬ (x.Format.Protocol = "hls" ∧ x.Format.MimeType = "audio/mpeg")) ∧
    (∀ m2 : Media, m2.Transcodings = m.Transcodings →
      m2.SelectCompatible = m.SelectCompatible) := by
  refine ⟨fun t => ?_, ?_, ?_⟩
  · unfold Media.SelectCompatible
    rw [selectLoop_some]
    simp only [← compatible_iff, Bool.not_eq_true]
  · unfold Media.SelectCompatible
    rw [selectLoop_none]
    simp only [← compatible_iff, Bool.not_eq_true]
  · intro m2 h
    unfold Media.SelectCompatible
    rw [h]

/-- Whatever the outcomes, a loop with `n` iterations left adds between one (when
`n ≥ 1`) and `n` attempts at the given request to the trace, and nothing else. -/
theorem doWithRetryLoop_trace (host : Host) (uri : Bytes) :
    ∀ (n : Nat) (last : Except TransportError Response) (w : World),
      ∃ k, k ≤ n ∧ (1 ≤ n → 1 ≤ k) ∧
        (doWithRetryLoop host uri n last w).2 =
          w.after (List.replicate k (.http host uri)) := by
  intro n
  induction n with
  | zero =>
    intro last w
    exact ⟨0, le_refl _, by omega, by simp [doWithRetryLoop, World.after_nil]⟩
  | succ n ih =>
    intro last w
    cases hr : retryable (w.outcome host uri 0) with
    | false =>
      refine ⟨1, by omega, by omega, ?_⟩
      rw [doWithRetryLoop_step_ok host uri n last w hr]
      rfl
    | true =>
      rw [doWithRetryLoop_step_retry host uri n last w hr]
      obtain ⟨k, hk, _, heq⟩ := ih (w.outcome host uri 0) (w.after [.http host uri])
      refine ⟨k + 1, by omega, by omega, ?_⟩
      rw [heq, World.after_after, List.replicate_succ]
      rfl

theorem doWithRetry_trace (host : Host) (uri : Bytes) (w : World) :
    ∃ k, 1 ≤ k ∧ k ≤ 10 ∧
      (doWithRetry host uri w).2 = w.after (List.replicate k (.http host uri)) := by
  obtain ⟨k, hk, h1, heq⟩ := doWithRetryLoop_trace host uri 10 (.ok Response.fresh) w
  exact ⟨k, h1 (by omega), hk, heq⟩

/-! ## downloadHLS -/

theorem bytesSplit_ne_nil (sep : Nat) (data : Bytes) : bytesSplit sep data ≠ [] := by
  cases data with
  | nil => simp [bytesSplit]
  | cons b rest =>
    unfold bytesSplit
    by_cases hb : b = sep
    · simp [hb]
    · simp only [hb, if_false]
      cases bytesSplit sep rest <;> simp

/-- The pieces `bytesSplit` returns, joined by the separator, give the input back. -/
theorem bytesSplit_intercalate (sep : Nat) (data : Bytes) :
    [sep].intercalate (bytesSplit sep data) = data := by
  induction data with
  | nil => simp [bytesSplit, List.intercalate]
  | cons b rest ih =>
    unfold bytesSplit
    have hne := bytesSplit_ne_nil sep rest
    cases hsp : bytesSplit sep rest with
    | nil => exact absurd hsp hne
    | cons l ls =>
      rw [hsp] at ih
      by_cases hb : b = sep
      · subst hb
        simp only [if_true]
        rw [← ih]
        simp [List.intercalate, List.intersperse]
      · simp only [hb, if_false]
        rw [← ih]
        cases ls <;> simp [List.intercalate, List.intersperse]

/-- No piece `bytesSplit` returns contains the separator. -/
theorem bytesSplit_no_sep (sep : Nat) (data : Bytes) :
    ∀ l ∈ bytesSplit sep data, sep ∉ l := by
  induction data with
  | nil => simp [bytesSplit]
  | cons b rest ih =>
    unfold bytesSplit
    by_cases hb : b = sep
    · subst hb
      simp only [if_true, List.mem_cons]
      rintro l (rfl | hl)
      · simp
      · exact ih l hl
    · simp only [hb, if_false]
      cases hsp : bytesSplit sep rest with
      | nil => simp; exact fun h => hb h.symm
      | cons l ls =>
        rw [hsp] at ih
        simp only [List.mem_cons]
        rintro x (rfl | hx)
        · simp only [List.mem_cons, not_or]
          exact ⟨fun h => hb h.symm, ih l (by simp)⟩
        · exact ih x (by simp [hx])

theorem View.read_mid (pre cur rest : Bytes) :
    (⟨pre.length, cur.length⟩ : View).read (pre ++ (cur ++ rest)) = cur := by
  simp [View.read]

/-- The sub-slices `splitViews` returns show, in the buffer they were cut from, the pieces
`bytesSplit` returns, and have their lengths. -/
theorem splitViews_spec (sep : Nat) :
    ∀ (rest pre cur : Bytes), ∃ l ls, bytesSplit sep rest = l :: ls ∧
      (splitViews sep rest pre.length cur.length).map
        (fun v => v.read (pre ++ (cur ++ rest))) = (cur ++ l) :: ls ∧
      (splitViews sep rest pre.length cur.length).map (fun v => v.len) =
        ((cur ++ l) :: ls).map List.length := by
  intro rest
  induction rest with
  | nil =>
    intro pre cur
    refine ⟨[], [], rfl, ?_, ?_⟩
    · simp [splitViews, View.read]
    · simp [splitViews]
  | cons b r ih =>
    intro pre cur
    by_cases hb : b = sep
    · subst hb
      obtain ⟨l, ls, hsp, hread, hlen⟩ := ih (pre ++ (cur ++ [b])) []
      have hoff : pre.length + cur.length + 1 = (pre ++ (cur ++ [b])).length := by
        simp [Nat.add_assoc]
      have h0 : (0 : Nat) = ([] : Bytes).length := rfl
      refine ⟨[], l :: ls, by simp [bytesSplit, hsp], ?_, ?_⟩
      · rw [splitViews]
        simp only [if_true, List.map_cons, List.append_nil]
        rw [View.read_mid pre cur (b :: r)]
        have hdata : pre ++ (cur ++ b :: r) = (pre ++ (cur ++ [b])) ++ ([] ++ r) := by simp
        rw [hoff, hdata, h0, hread]
        simp
      · rw [splitViews]
        simp only [if_true, List.map_cons, List.append_nil]
        rw [hoff, h0, hlen]
        simp
    · obtain ⟨l, ls, hsp, hread, hlen⟩ := ih pre (cur ++ [b])
      refine ⟨b :: l, ls, by simp [bytesSplit, hb, hsp], ?_, ?_⟩
      · rw [splitViews]
        simp only [hb, if_false]
        have hl : cur.length + 1 = (cur ++ [b]).length := by simp
        have hdata : pre ++ (cur ++ b :: r) = pre ++ ((cur ++ [b]) ++ r) := by simp
        rw [hl, hdata, hread]
        simp
      · rw [splitViews]
        simp only [hb, if_false]
        have hl : cur.length + 1 = (cur ++ [b]).length := by simp
        rw [hl, hlen]
        simp

theorem splitViews_read (data : Bytes) :
    (splitViews 10 data 0 0).map (fun v => v.read data) = bytesSplit 10 data ∧
    (splitViews 10 data 0 0).map (fun v => v.len) = (bytesSplit 10 data).map List.length := by
  obtain ⟨l, ls, hsp, hread, hlen⟩ := splitViews_spec 10 data [] []
  simp only [List.length_nil, List.nil_append] at hread hlen
  rw [hsp]
  exact ⟨hread, hlen⟩

/-- The parts the first loop keeps show, in the buffer they were cut from, the pieces that
are non-empty and do not begin with `#`. -/
theorem partsLoop_spec (data : Bytes) :
    ∀ (views : List View) (pieces : List Bytes) (parts : List View),
      views.map (fun v => v.read data) = pieces →
      views.map (fun v => v.len) = pieces.map List.length →
      (partsLoop data views parts).map (fun v => v.read data) =
        parts.map (fun v => v.read data) ++
          pieces.filter (fun s => decide (s ≠ [] ∧ s.head? ≠ some 35)) := by
  intro views
  induction views with
  | nil =>
    intro pieces parts h _
    simp only [List.map_nil] at h
    subst h
    simp [partsLoop]
  | cons v rest ih =>
    intro pieces parts h hl
    cases pieces with
    | nil => simp at h
    | cons p ps =>
      simp only [List.map_cons, List.cons.injEq] at h hl
      obtain ⟨hv, hrest⟩ := h
      obtain ⟨hvl, hrestl⟩ := hl
      rw [partsLoop, hv, hvl]
      by_cases hp : p = []
      · subst hp
        simp [ih ps parts hrest hrestl]
      · have hlen : p.length ≠ 0 := fun h0 => hp (List.length_eq_zero.mp h0)
        by_cases hh : p.head? = some 35
        · simp [hlen, hh, ih ps parts hrest hrestl]
        · simp [hlen, hh, hp, ih ps (parts ++ [v]) hrest hrestl, hv]

theorem partsLoop_segmentLines (data : Bytes) :
    (partsLoop data (splitViews 10 data 0 0) []).map (fun v => v.read data) =
      segmentLines data := by
  rw [partsLoop_spec data _ (bytesSplit 10 data) [] (splitViews_read data).1
    (splitViews_read data).2]
  rfl

/-- When the parts do not point into the body buffer, or no call reuses that buffer, and
every fetch of a part succeeds with its payload, the second loop appends the payloads in
order and requests the parts in order, the `i`-th with `ks[i]` attempts. -/
theorem segmentLoop_spec (payload : Bytes → Bytes) (aliased : Bool) (mem : Bytes) :
    ∀ (parts : List View) (result : Bytes) (w : World),
      (aliased = false ∨ ∀ n, w.bufferReused n = false) →
      (∀ (evs : List Event) (s : Bytes), s ∈ parts.map (fun v => v.read mem) →
        ∃ resp, (doWithRetry .hlscdn s (w.after evs)).1 = .ok resp ∧ resp.data = payload s) →
      (segmentLoop aliased parts mem result w).1 =
        .ok (result ++ ((parts.map (fun v => v.read mem)).map payload).flatten) ∧
      ∃ ks : List Nat, ks.length = parts.length ∧ (∀ k ∈ ks, 1 ≤ k ∧ k ≤ 10) ∧
        (segmentLoop aliased parts mem result w).2 =
          w.after (List.zipWith (fun k s => List.replicate k (Event.http .hlscdn s))
            ks (parts.map (fun v => v.read mem))).flatten := by
  intro parts
  induction parts with
  | nil =>
    intro result w _ _
    exact ⟨by simp [segmentLoop], [], rfl, by simp, by simp [segmentLoop, World.after_nil]⟩
  | cons p rest ih =>
    intro result w hmem h
    obtain ⟨resp, hresp, hdata⟩ := h [] (p.read mem) (by simp)
    rw [World.after_nil] at hresp
    obtain ⟨k, hk1, hk10, htrace⟩ := doWithRetry_trace .hlscdn (p.read mem) w
    have hpair : doWithRetry .hlscdn (p.read mem) w =
        (.ok resp, w.after (List.replicate k (.http .hlscdn (p.read mem)))) := by
      rw [← hresp, ← htrace]
    have hflag : (aliased &&
        (w.after (List.replicate k (.http .hlscdn (p.read mem)))).bufferReused
          ((w.after (List.replicate k (.http .hlscdn (p.read mem)))).trace.length - 1)) =
        false := by
      rcases hmem with ha | hw
      · simp [ha]
      · have : (w.after (List.replicate k (.http .hlscdn (p.read mem)))).bufferReused =
            w.bufferReused := rfl
        rw [this, hw]
        simp
    have hunfold : segmentLoop aliased (p :: rest) mem result w =
        segmentLoop aliased rest mem (result ++ resp.data)
          (w.after (List.replicate k (.http .hlscdn (p.read mem)))) := by
      rw [segmentLoop, hpair]
      simp only [hflag, Bool.false_eq_true, if_false]
    have hrest := ih (result ++ resp.data)
      (w.after (List.replicate k (.http .hlscdn (p.read mem)))) hmem
      (fun evs x hx => by
        rw [World.after_after]
        exact h _ x (by simp only [List.map_cons, List.mem_cons]; exact Or.inr hx))
    obtain ⟨hval, ks, hlen, hks, hw⟩ := hrest
    rw [hunfold]
    refine ⟨?_, k :: ks, by simp [hlen], ?_, ?_⟩
    · rw [hval, hdata]
      simp [List.append_assoc]
    · intro x hx
      rcases List.mem_cons.mp hx with rfl | hx
      · exact ⟨hk1, hk10⟩
      · exact hks x hx
    · rw [hw, World.after_after]
      simp

/-- When the manifest is read from a decoded copy, or no call reuses the body buffer, and
the manifest fetch and every fetch of a segment line succeed, `downloadHLS` returns the
payloads of the segment lines of the manifest concatenated in order, and requests the
manifest URL followed by exactly those lines in order. -/
theorem downloadHLS_concat_unaliased (w : World) (url : String) (resp : Response)
    (payload : Bytes → Bytes)
    (hmanifest : (doWithRetry .hlscdn (utf8 url) w).1 = .ok resp)
    (hfresh : resp.uncompressed ≠ none ∨ ∀ n, w.bufferReused n = false)
    (hsegments : ∀ (evs : List Event) (s : Bytes), s ∈ segmentLines resp.data →
      ∃ r, (doWithRetry .hlscdn s (w.after evs)).1 = .ok r ∧ r.data = payload s) :
    (downloadHLS url w).1 = .ok ((segmentLines resp.data).map payload).flatten ∧
    ∃ ks : List Nat, ks.length = (segmentLines resp.data).length + 1 ∧
      (∀ k ∈ ks, 1 ≤ k ∧ k ≤ 10) ∧
      (downloadHLS url w).2 =
        w.after (List.zipWith (fun k s => List.replicate k (Event.http .hlscdn s))
          ks (utf8 url :: segmentLines resp.data)).flatten := by
  obtain ⟨k, hk1, hk10, htrace⟩ := doWithRetry_trace .hlscdn (utf8 url) w
  have hpair : doWithRetry .hlscdn (utf8 url) w =
      (.ok resp, w.after (List.replicate k (.http .hlscdn (utf8 url)))) := by
    rw [← hmanifest, ← htrace]
  have hunfold : downloadHLS url w =
      segmentLoop resp.uncompressed.isNone
        (partsLoop resp.data (splitViews 10 resp.data 0 0) []) resp.data []
        (w.after (List.replicate k (.http .hlscdn (utf8 url)))) := by
    unfold downloadHLS
    rw [hpair]
  have hmem : resp.uncompressed.isNone = false ∨
      ∀ n, (w.after (List.replicate k (.http .hlscdn (utf8 url)))).bufferReused n = false := by
    rcases hfresh with h | h
    · left
      cases hu : resp.uncompressed with
      | none => exact absurd hu h
      | some d => rfl
    · right
      exact h
  obtain ⟨hval, ks, hlen, hks, hw⟩ := segmentLoop_spec payload resp.uncompressed.isNone
    resp.data (partsLoop resp.data (splitViews 10 resp.data 0 0) []) []
    (w.after (List.replicate k (.http .hlscdn (utf8 url)))) hmem
    (fun evs s hs => by
      rw [World.after_after]
      rw [partsLoop_segmentLines] at hs
      exact hsegments _ s hs)
  rw [partsLoop_segmentLines] at hval hw
  have hlen2 : ks.length = (segmentLines resp.data).length := by
    rw [hlen, ← List.length_map (partsLoop resp.data (splitViews 10 resp.data 0 0) [])
      (fun v => v.read resp.data), partsLoop_segmentLines]
  rw [hunfold]
  refine ⟨by simpa using hval, k :: ks, by simp [hlen2], ?_, ?_⟩
  · intro x hx
    rcases List.mem_cons.mp hx with rfl | hx
    · exact ⟨hk1, hk10⟩
    · exact hks x hx
  · rw [hw, World.after_after]
    simp

theorem segmentLines_sampleManifest :
    segmentLines sampleManifest =
      [utf8 "https://cf-hls-media.sndcdn.com/seg1",
        utf8 "https://cf-hls-media.sndcdn.com/seg2"] := by
  decide

/-- The second scenario of the specification, with a manifest that arrives encoded: the
comment line and the empty line are skipped and the payloads of seg1 and seg2 are
concatenated in that order. -/
theorem downloadHLS_sample :
    downloadHLS "https://cf-hls-media.sndcdn.com/playlist.m3u8" hlsWorld =
      (.ok ([1, 2, 3] ++ [4, 5]),
        hlsWorld.after
          [.http .hlscdn (utf8 "https://cf-hls-media.sndcdn.com/playlist.m3u8"),
            .http .hlscdn (utf8 "https://cf-hls-media.sndcdn.com/seg1"),
            .http .hlscdn (utf8 "https://cf-hls-media.sndcdn.com/seg2")]) := by
  rfl

/-- C1. `downloadHLS` does not always return the payloads of the manifest lines.  The
manifest `twoLineManifest` has the two segment lines `/a` and `/b`, it arrives without
encoding, every fetch succeeds, and the fetch of `/a` reads its payload into the body
buffer the lines were cut from.  The second line then shows `/c`: `downloadHLS` requests
`/m`, `/a`, `/c` and returns the payload of `/a` followed by the payload of `/c`, where
the claim has the payload of `/a` followed by the payload of `/b`. -/
theorem downloadHLS_overwritten :
    twoLineManifest =
      utf8 "https://cf-hls-media.sndcdn.com/a" ++ [10] ++
        utf8 "https://cf-hls-media.sndcdn.com/b" ∧
    segmentLines twoLineManifest =
      [utf8 "https://cf-hls-media.sndcdn.com/a", utf8 "https://cf-hls-media.sndcdn.com/b"] ∧
    downloadHLS "https://cf-hls-media.sndcdn.com/m" overwriteWorld =
      (.ok (payloadA ++ [67]),
        overwriteWorld.after
          [.http .hlscdn (utf8 "https://cf-hls-media.sndcdn.com/m"),
            .http .hlscdn (utf8 "https://cf-hls-media.sndcdn.com/a"),
            .http .hlscdn (utf8 "https://cf-hls-media.sndcdn.com/c")]) ∧
    payloadA ++ [67] ≠ payloadA ++ [66] := by
  refine ⟨by decide, by decide, by rfl, by decide⟩

/-! ## The backfill of downloadPlaylist -/

theorem batches_gt (missing : List MissingTrack) (h : missing.length > 50) :
    batches missing = missing.take 50 :: batches (missing.drop 50) := by
  rw [batches]
  simp [h]

theorem batches_le (missing : List MissingTrack) (h : missing.length ≤ 50) :
    batches missing = [missing] := by
  rw [batches]
  simp [Nat.not_lt.mpr h]

theorem batches_flatten (missing : List MissingTrack) :
    (batches missing).flatten = missing := by
  generalize hn : missing.length = n
  induction n using Nat.strong_induction_on generalizing missing with
  | _ n ih =>
    subst hn
    by_cases h : missing.length > 50
    · rw [batches_gt missing h, List.flatten_cons,
        ih (missing.drop 50).length (by simp; omega) _ rfl, List.take_append_drop]
    · rw [batches_le missing (by omega)]
      simp

theorem batches_length (missing : List MissingTrack) (hne : missing ≠ []) :
    (batches missing).length = (missing.length + 49) / 50 := by
  generalize hn : missing.length = n
  induction n using Nat.strong_induction_on generalizing missing with
  | _ n ih =>
    subst hn
    have hpos : 0 < missing.length := List.length_pos.mpr hne
    by_cases h : missing.length > 50
    · rw [batches_gt missing h, List.length_cons,
        ih (missing.drop 50).length (by simp; omega) _
          (by intro h0; have := congrArg List.length h0; simp at this; omega) rfl]
      simp only [List.length_drop]
      omega
    · rw [batches_le missing (by omega)]
      simp only [List.length_singleton]
      omega

theorem batches_ne_nil (missing : List MissingTrack) : batches missing ≠ [] := by
  by_cases h : missing.length > 50
  · rw [batches_gt missing h]; simp
  · rw [batches_le missing (by omega)]; simp

theorem batches_dropLast (missing : List MissingTrack) :
    ∀ b ∈ (batches missing).dropLast, b.length = 50 := by
  generalize hn : missing.length = n
  induction n using Nat.strong_induction_on generalizing missing with
  | _ n ih =>
    subst hn
    by_cases h : missing.length > 50
    · rw [batches_gt missing h]
      intro b hb
      cases hrest : batches (missing.drop 50) with
      | nil => exact absurd hrest (batches_ne_nil _)
      | cons c cs =>
        rw [hrest, List.dropLast_cons₂] at hb
        rcases List.mem_cons.mp hb with rfl | hb
        · simp; omega
        · have := ih (missing.drop 50).length (by simp; omega) _ rfl b
          rw [hrest] at this
          exact this hb
    · rw [batches_le missing (by omega)]
      simp

/-! ### The serializer joinMissingTracks -/

theorem intercalate_cons_cons (s a b : String) (rest : List String) :
    s.intercalate (a :: b :: rest) = String.intercalate.go (a ++ s ++ b) s rest := rfl

theorem joinLoop_eq_go (n : Nat) :
    ∀ (rest : List MissingTrack) (t : MissingTrack) (i : Nat) (st : String),
      i + rest.length + 1 = n →
      joinLoop n (t :: rest) i st =
        String.intercalate.go (st ++ toString t.ID) ","
          (rest.map (fun m => toString m.ID)) := by
  intro rest
  induction rest with
  | nil =>
    intro t i st h
    have hi : ((i : Int) != (n : Int) - 1) = false := by
      simp only [List.length_nil] at h
      simp only [bne_eq_false_iff_eq]
      omega
    simp [joinLoop, hi, String.intercalate.go]
  | cons t2 r ih =>
    intro t i st h
    have hi : ((i : Int) != (n : Int) - 1) = true := by
      simp only [List.length_cons] at h
      simp only [bne_iff_ne, ne_eq]
      omega
    rw [joinLoop]
    simp only [hi, if_true]
    rw [ih t2 (i + 1) _ (by simp only [List.length_cons] at h; omega)]
    simp [String.intercalate.go]

/-- The serializer of the source writes the decimal ids of the references, in order,
joined by commas. -/
theorem joinMissingTracks_eq (batch : List MissingTrack) :
    joinMissingTracks batch = commaIds batch := by
  unfold joinMissingTracks commaIds
  cases batch with
  | nil => rfl
  | cons t rest =>
    rw [joinLoop_eq_go _ rest t 0 "" (by simp)]
    cases rest with
    | nil => simp [String.intercalate, String.intercalate.go]
    | cons t2 r => simp [String.intercalate, String.intercalate.go]

theorem commaIds_sample :
    commaIds [⟨-5, 0⟩, ⟨12, 1⟩, ⟨7, 2⟩] = "-5,12,7" ∧ commaIds [⟨42, 3⟩] = "42" ∧
    joinMissingTracks [⟨-5, 0⟩, ⟨12, 1⟩, ⟨7, 2⟩] = "-5,12,7" := by
  decide

theorem getTracks_uri (env : Env) (ids : String) :
    utf8 ("https://" ++ api ++ "/tracks?ids=" ++ ids ++ "&client_id=" ++ env.cid) =
      utf8 ("https://api-v2.soundcloud.com/tracks?ids=" ++ ids ++ "&client_id=" ++ env.cid) := by
  have h : "https://" ++ api ++ "/tracks?ids=" = "https://api-v2.soundcloud.com/tracks?ids=" := by
    decide
  rw [h]

theorem getMissingTracks_gt (env : Env) (missing : List MissingTrack) (w : World)
    (h : missing.length > 50) :
    getMissingTracks env missing w =
      (((getTracks env (commaIds (missing.take 50)) w).1, missing.drop 50),
        (getTracks env (commaIds (missing.take 50)) w).2) := by
  unfold getMissingTracks
  simp [h, joinMissingTracks_eq]

theorem getMissingTracks_le (env : Env) (missing : List MissingTrack) (w : World)
    (h : missing.length ≤ 50) :
    getMissingTracks env missing w =
      (((getTracks env (commaIds missing) w).1, []),
        (getTracks env (commaIds missing) w).2) := by
  unfold getMissingTracks
  simp [Nat.not_lt.mpr h, joinMissingTracks_eq]

theorem backfillLoop_unfold (env : Env) (missing : List MissingTrack)
    (tracks : List Track) (w : World) :
    backfillLoop env missing tracks w =
      match getMissingTracks env missing w with
      | ((.error err, _), w1) => (.error err, w1)
      | ((.ok res, next), w1) =>
        if next.length = 0 then (.ok (tracks ++ res), w1)
        else backfillLoop env next (tracks ++ res) w1 := by
  rw [backfillLoop]
  split
  · rename_i heq
    rw [heq]
  · rename_i heq
    rw [heq]
    rfl

/-- The backfill loop is the sequence of batch fetches over `batches missing`. -/
theorem backfillLoop_eq_fetchBatches (env : Env) (missing : List MissingTrack)
    (tracks : List Track) (w : World) :
    backfillLoop env missing tracks w =
      match fetchBatches env (batches missing) w with
      | (.error err, w1) => (.error err, w1)
      | (.ok rs, w1) => (.ok (tracks ++ rs.flatten), w1) := by
  generalize hn : missing.length = n
  induction n using Nat.strong_induction_on generalizing missing tracks w with
  | _ n ih =>
    subst hn
    rw [backfillLoop_unfold]
    by_cases h : missing.length > 50
    · rw [batches_gt missing h]
      simp only [getMissingTracks_gt env missing w h, fetchBatches]
      rcases hg : getTracks env (commaIds (missing.take 50)) w with ⟨r, w1⟩
      cases r with
      | error err => simp
      | ok res =>
        have hd : (missing.drop 50).length ≠ 0 := by simp; omega
        simp only [hd, if_false]
        rw [ih (missing.drop 50).length (by simp; omega) _ _ _ rfl]
        rcases fetchBatches env (batches (missing.drop 50)) w1 with ⟨r2, w2⟩
        cases r2 <;> simp [List.append_assoc]
    · rw [batches_le missing (by omega)]
      simp only [getMissingTracks_le env missing w (by omega), fetchBatches]
      rcases hg : getTracks env (commaIds missing) w with ⟨r, w1⟩
      cases r <;> simp

/-- A batch fetch makes between one and ten attempts at the request that lists the ids of
the batch, and nothing else, whether it succeeds or not. -/
theorem getTracks_trace (env : Env) (batch : List MissingTrack) (w : World) :
    ∃ k, 1 ≤ k ∧ k ≤ 10 ∧
      (getTracks env (commaIds batch) w).2 =
        w.after (List.replicate k (.http .api (tracksURI env batch))) := by
  obtain ⟨k, h1, h10, heq⟩ := doWithRetry_trace .api (tracksURI env batch) w
  refine ⟨k, h1, h10, ?_⟩
  rw [← heq]
  unfold getTracks tracksURI
  rw [getTracks_uri]
  rcases doWithRetry .api
    (utf8 ("https://api-v2.soundcloud.com/tracks?ids=" ++ commaIds batch ++
      "&client_id=" ++ env.cid)) w with ⟨r, w1⟩
  cases r <;> rfl

/-- The requests of a sequence of batch fetches are the requests of the first `ks.length`
batches, in order, each attempted between one and ten times; when every fetch succeeds
these are all the batches and there is one result per batch. -/
theorem fetchBatches_trace (env : Env) :
    ∀ (bs : List (List MissingTrack)) (w : World),
      ∃ ks : List Nat, ks.length ≤ bs.length ∧ (∀ k ∈ ks, 1 ≤ k ∧ k ≤ 10) ∧
        (fetchBatches env bs w).2 = w.after (List.zipWith
          (fun k b => List.replicate k (Event.http .api (tracksURI env b))) ks bs).flatten ∧
        (bs ≠ [] → ks ≠ []) ∧
        (∀ rs, (fetchBatches env bs w).1 = .ok rs →
          ks.length = bs.length ∧ rs.length = bs.length) := by
  intro bs
  induction bs with
  | nil =>
    intro w
    exact ⟨[], by simp, by simp, by simp [fetchBatches, World.after_nil], by simp,
      by simp [fetchBatches]⟩
  | cons b rest ih =>
    intro w
    obtain ⟨k, hk1, hk10, htr⟩ := getTracks_trace env b w
    rw [fetchBatches]
    rcases hg : getTracks env (commaIds b) w with ⟨r, w1⟩
    rw [hg] at htr
    simp only at htr
    cases r with
    | error err =>
      refine ⟨[k], by simp, ?_, ?_, by simp, by simp⟩
      · intro x hx
        simp only [List.mem_singleton] at hx
        subst hx
        exact ⟨hk1, hk10⟩
      · simp [htr]
    | ok res =>
      simp only
      obtain ⟨ks, hklen, hks, hw, _, hok⟩ := ih w1
      rcases hf : fetchBatches env rest w1 with ⟨r2, w3⟩
      rw [hf] at hw hok
      simp only at hw hok
      have hcommon : w3 = w.after (List.zipWith
          (fun k b => List.replicate k (Event.http .api (tracksURI env b)))
          (k :: ks) (b :: rest)).flatten := by
        rw [hw, htr, World.after_after]
        simp
      have hmem : ∀ x ∈ k :: ks, 1 ≤ x ∧ x ≤ 10 := by
        intro x hx
        rcases List.mem_cons.mp hx with rfl | hx
        · exact ⟨hk1, hk10⟩
        · exact hks x hx
      cases r2 with
      | error err =>
        exact ⟨k :: ks, by simp; omega, hmem, hcommon, by simp, by simp⟩
      | ok rs2 =>
        refine ⟨k :: ks, by simp; omega, hmem, hcommon, by simp, ?_⟩
        intro rs hrs
        simp only [Except.ok.injEq] at hrs
        subst hrs
        obtain ⟨h1, h2⟩ := hok rs2 rfl
        simp [h1, h2]

theorem backfill_eq_fetchBatches (env : Env) (missing : List MissingTrack)
    (tracks : List Track) (w : World) (hne : missing ≠ []) :
    backfill env missing tracks w =
      match fetchBatches env (batches missing) w with
      | (.error err, w1) => (.error err, w1)
      | (.ok rs, w1) => (.ok (tracks ++ rs.flatten), w1) := by
  unfold backfill
  have : missing.length ≠ 0 := fun h => hne (List.length_eq_zero.mp h)
  simp only [bne_iff_ne, ne_eq, this, not_false_eq_true, if_true]
  exact backfillLoop_eq_fetchBatches env missing tracks w

/-- C2. For a non-empty list `missing` of `n` references, the batches are
`batches missing`: there are `ceil(n/50) = (n + 49) / 50` of them, every one but the last
holds exactly 50 references, and concatenated in order they give `missing` back.  The
backfill loop of `downloadPlaylist` is the sequence of batch fetches over these batches
in order.  The requests it makes are, in order, those of the first `ks.length` batches,
each attempted between one and ten times by `doWithRetry`, and the request of a batch is
the URI that lists the decimal ids of exactly the references of that batch, in order,
joined by commas; when the loop runs to its end (returns without error) these are all
`(n + 49) / 50` batches, so every reference is requested exactly once.  For `n > 50` one
call of `getMissingTracks` requests the ids of the first 50 references and returns the
other `n - 50` as the remainder. -/
theorem backfill_batches (env : Env) (missing : List MissingTrack) (tracks : List Track)
    (w : World) (hne : missing ≠ []) :
    (batches missing).length = (missing.length + 49) / 50 ∧
    (∀ b ∈ (batches missing).dropLast, b.length = 50) ∧
    (batches missing).flatten = missing ∧
    (backfill env missing tracks w =
      match fetchBatches env (batches missing) w with
      | (.error err, w1) => (.error err, w1)
      | (.ok rs, w1) => (.ok (tracks ++ rs.flatten), w1)) ∧
    (∃ ks : List Nat, 1 ≤ ks.length ∧ ks.length ≤ (missing.length + 49) / 50 ∧
      (∀ k ∈ ks, 1 ≤ k ∧ k ≤ 10) ∧
      (backfill env missing tracks w).2 = w.after (List.zipWith
        (fun k b => List.replicate k (Event.http .api
          (utf8 ("https://api-v2.soundcloud.com/tracks?ids=" ++
            ",".intercalate (b.map (fun m => toString m.ID)) ++ "&client_id=" ++ env.cid))))
        ks (batches missing)).flatten ∧
      (∀ res, (backfill env missing tracks w).1 = .ok res →
        ks.length = (missing.length + 49) / 50)) ∧
    (missing.length > 50 →
      (getMissingTracks env missing w).1.2 = missing.drop 50 ∧
      (missing.take 50).length = 50 ∧
      (missing.drop 50).length = missing.length - 50 ∧
      ∃ k, 1 ≤ k ∧ k ≤ 10 ∧
        (getMissingTracks env missing w).2 = w.after (List.replicate k (Event.http .api
          (utf8 ("https://api-v2.soundcloud.com/tracks?ids=" ++
            ",".intercalate ((missing.take 50).map (fun m => toString m.ID)) ++
            "&client_id=" ++ env.cid))))) := by
  refine ⟨batches_length missing hne, batches_dropLast missing, batches_flatten missing,
    backfill_eq_fetchBatches env missing tracks w hne, ?_, ?_⟩
  · obtain ⟨ks, hklen, hks, hw, hne2, hok⟩ := fetchBatches_trace env (batches missing) w
    have hks1 : 1 ≤ ks.length := List.length_pos.mpr (hne2 (batches_ne_nil missing))
    rw [batches_length missing hne] at hklen hok
    refine ⟨ks, hks1, hklen, hks, ?_, ?_⟩
    · rw [backfill_eq_fetchBatches env missing tracks w hne]
      rcases hf : fetchBatches env (batches missing) w with ⟨r, w3⟩
      rw [hf] at hw
      cases r <;> exact hw
    · intro res hres
      rw [backfill_eq_fetchBatches env missing tracks w hne] at hres
      rcases hf : fetchBatches env (batches missing) w with ⟨r, w3⟩
      rw [hf] at hres hok
      cases r with
      | error err => simp at hres
      | ok rs => exact (hok rs rfl).1
  · intro h
    refine ⟨?_, ?_, ?_, ?_⟩
    · rw [getMissingTracks_gt env missing w h]
    · simp; omega
    · simp
    · obtain ⟨k, h1, h10, htr⟩ := getTracks_trace env (missing.take 50) w
      exact ⟨k, h1, h10, by rw [getMissingTracks_gt env missing w h]; exact htr⟩

theorem batches_sixtyMissing :
    (batches sixtyMissing).map List.length = [50, 10] := by
  have h60 : sixtyMissing.length = 60 := by decide
  have hd : (sixtyMissing.drop 50).length = 10 := by simp [h60]
  rw [batches_gt sixtyMissing (by omega), batches_le _ (by omega)]
  simp [h60]

/-! ## The partition of downloadPlaylist -/

theorem missingFrom_cons (i : Nat) (t : Track) (rest : List Track) :
    missingFrom i (t :: rest) =
      if t.Title == "" then ⟨t.ID, i⟩ :: missingFrom (i + 1) rest
      else missingFrom (i + 1) rest := by
  unfold missingFrom
  by_cases h : t.Title == ""
  · simp [List.enumFrom, List.filter, h]
  · simp [List.enumFrom, List.filter, h]

theorem partitionLoop_eq (ts : List Track) :
    ∀ (i : Nat) (tracks : List Track) (missing : List MissingTrack),
      partitionLoop ts i tracks missing =
        (tracks ++ ts.filter (fun t => t.Title != ""), missing ++ missingFrom i ts) := by
  induction ts with
  | nil => intro i tracks missing; simp [partitionLoop, missingFrom]
  | cons t rest ih =>
    intro i tracks missing
    rw [partitionLoop, missingFrom_cons]
    by_cases h : t.Title == ""
    · have h2 : (t.Title != "") = false := by simpa using h
      simp only [h, if_true, ih, List.filter_cons, h2]
      simp
    · have h2 : (t.Title != "") = true := by simpa using h
      simp only [h, if_false, ih, List.filter_cons, h2]
      simp

theorem mem_missingFrom (ts : List Track) :
    ∀ (i : Nat) (m : MissingTrack),
      m ∈ missingFrom i ts ↔
        i ≤ m.Index ∧ ∃ t, ts[m.Index - i]? = some t ∧ t.Title = "" ∧ t.ID = m.ID := by
  induction ts with
  | nil => intro i m; simp [missingFrom]
  | cons t rest ih =>
    intro i m
    rw [missingFrom_cons]
    have key : (m ∈ missingFrom (i + 1) rest) ↔
        i + 1 ≤ m.Index ∧ ∃ t0, (t :: rest)[m.Index - i]? = some t0 ∧ t0.Title = "" ∧
          t0.ID = m.ID := by
      rw [ih]
      constructor
      · rintro ⟨hle, t0, hget, h1, h2⟩
        refine ⟨hle, t0, ?_, h1, h2⟩
        have : m.Index - i = (m.Index - (i + 1)) + 1 := by omega
        rw [this, List.getElem?_cons_succ]
        exact hget
      · rintro ⟨hle, t0, hget, h1, h2⟩
        refine ⟨hle, t0, ?_, h1, h2⟩
        have : m.Index - i = (m.Index - (i + 1)) + 1 := by omega
        rw [this, List.getElem?_cons_succ] at hget
        exact hget
    by_cases h : t.Title == ""
    · simp only [h, if_true, List.mem_cons, key]
      have ht : t.Title = "" := by simpa using h
      constructor
      · rintro (rfl | ⟨hle, hex⟩)
        · exact ⟨le_refl _, t, by simp, ht, rfl⟩
        · exact ⟨by omega, hex⟩
      · rintro ⟨hle, t0, hget, h1, h2⟩
        by_cases hi : m.Index = i
        · left
          rw [hi] at hget
          simp at hget
          subst hget
          cases m
          simp_all
        · right
          exact ⟨by omega, t0, hget, h1, h2⟩
    · simp only [h, Bool.false_eq_true, if_false, key]
      have ht : ¬ t.Title = "" := by simpa using h
      constructor
      · rintro ⟨hle, hex⟩
        exact ⟨by omega, hex⟩
      · rintro ⟨hle, t0, hget, h1, h2⟩
        by_cases hi : m.Index = i
        · rw [hi] at hget
          simp at hget
          subst hget
          exact absurd h1 ht
        · exact ⟨by omega, t0, hget, h1, h2⟩

theorem missingFrom_sorted (ts : List Track) :
    ∀ (i : Nat), ((missingFrom i ts).map (fun m => m.Index)).Pairwise (fun a b => a < b) := by
  induction ts with
  | nil => intro i; simp [missingFrom]
  | cons t rest ih =>
    intro i
    rw [missingFrom_cons]
    by_cases h : t.Title == ""
    · simp only [h, if_true, List.map_cons, List.pairwise_cons]
      refine ⟨?_, ih (i + 1)⟩
      intro b hb
      obtain ⟨m, hm, rfl⟩ := List.mem_map.mp hb
      have := ((mem_missingFrom rest (i + 1) m).mp hm).1
      omega
    · simp only [h, Bool.false_eq_true, if_false]
      exact ih (i + 1)

theorem batches_sixtyMissing_eq :
    batches sixtyMissing = [sixtyMissing.take 50, sixtyMissing.drop 50] := by
  have h60 : sixtyMissing.length = 60 := by decide
  have hd : (sixtyMissing.drop 50).length = 10 := by simp [h60]
  rw [batches_gt sixtyMissing (by omega), batches_le _ (by omega)]

set_option maxRecDepth 100000 in
theorem tracksURI_sixty_first :
    tracksURI sampleEnv (sixtyMissing.take 50) = utf8
      "https://api-v2.soundcloud.com/tracks?ids=1000,1001,1002,1003,1004,1005,1006,1007,1008,1009,1010,1011,1012,1013,1014,1015,1016,1017,1018,1019,1020,1021,1022,1023,1024,1025,1026,1027,1028,1029,1030,1031,1032,1033,1034,1035,1036,1037,1038,1039,1040,1041,1042,1043,1044,1045,1046,1047,1048,1049&client_id=CID" := by
  decide

set_option maxRecDepth 100000 in
theorem tracksURI_sixty_second :
    tracksURI sampleEnv (sixtyMissing.drop 50) = utf8
      "https://api-v2.soundcloud.com/tracks?ids=1050,1051,1052,1053,1054,1055,1056,1057,1058,1059&client_id=CID" := by
  decide

/-- C2, witness: sixty references, with ids 1000 to 1059, are requested in two batches,
the first listing the ids 1000 to 1049 and the second the ids 1050 to 1059. -/
theorem backfill_batches_witness :
    sixtyMissing ≠ [] ∧
    (batches sixtyMissing).length = 2 ∧
    (batches sixtyMissing).map List.length = [50, 10] ∧
    (backfill sampleEnv sixtyMissing [] okWorld).2.trace =
      [.http .api (utf8
        "https://api-v2.soundcloud.com/tracks?ids=1000,1001,1002,1003,1004,1005,1006,1007,1008,1009,1010,1011,1012,1013,1014,1015,1016,1017,1018,1019,1020,1021,1022,1023,1024,1025,1026,1027,1028,1029,1030,1031,1032,1033,1034,1035,1036,1037,1038,1039,1040,1041,1042,1043,1044,1045,1046,1047,1048,1049&client_id=CID"),
        .http .api (utf8
          "https://api-v2.soundcloud.com/tracks?ids=1050,1051,1052,1053,1054,1055,1056,1057,1058,1059&client_id=CID")] := by
  have hne : sixtyMissing ≠ [] := by decide
  have h := backfill_batches sampleEnv sixtyMissing [] okWorld hne
  refine ⟨hne, ?_, batches_sixtyMissing, ?_⟩
  · rw [h.1]
    decide
  · rw [h.2.2.2.1, batches_sixtyMissing_eq, ← tracksURI_sixty_first, ← tracksURI_sixty_second]
    rfl

/-! ## downloadPlaylist -/

theorem downloadPlaylist_unfold (env : Env) (path : String) (w : World) (p : Playlist)
    (w1 : World)
    (hres : resolve env env.unmarshalPlaylist path Playlist.zero w = (.ok p, w1))
    (hkind : p.Kind = "playlist") :
    downloadPlaylist env path w =
      match backfill env (missingOf p.Tracks) (p.Tracks.filter (fun t => t.Title != "")) w1 with
      | (.error err, w2) => (some err, w2)
      | (.ok tracks, w2) =>
        if tracks.length == 0 then (none, log "No tracks in playlist\n" w2)
        else downloadTracks p.Permalink tracks w2 := by
  unfold downloadPlaylist
  rw [hres]
  simp only [hkind, bne_self_eq_false, Bool.false_eq_true, if_false, partitionLoop_eq,
    List.nil_append]
  rfl

/-- C6. Let `resolve` return the playlist `p` of kind "playlist" and let the backfill of
its missing entries succeed with the track list `tracks`.  The partition loop splits the
entries into those with a non-empty title and the references `missingOf p.Tracks`, which
are the ones sent for backfill: a reference belongs to them exactly when the entry at
its index has an empty title and its numeric id, and the indices are strictly increasing,
so each such entry is sent once.  The list `tracks` consists of the entries with a
non-empty title, unchanged and in their original order, followed by the results of the
batch fetches in batch order; and this list (when it is not empty) is the one handed to
`downloadTracks`, together with the permalink of the playlist. -/
theorem downloadPlaylist_tracks (env : Env) (path : String) (w : World) (p : Playlist)
    (w1 : World) (tracks : List Track) (w2 : World)
    (hres : resolve env env.unmarshalPlaylist path Playlist.zero w = (.ok p, w1))
    (hkind : p.Kind = "playlist")
    (hback : backfill env (missingOf p.Tracks) (p.Tracks.filter (fun t => t.Title != "")) w1 =
      (.ok tracks, w2)) :
    partitionLoop p.Tracks 0 [] [] =
      (p.Tracks.filter (fun t => t.Title != ""), missingOf p.Tracks) ∧
    (∀ m : MissingTrack, m ∈ missingOf p.Tracks ↔
      ∃ t, p.Tracks[m.Index]? = some t ∧ t.Title = "" ∧ t.ID = m.ID) ∧
    ((missingOf p.Tracks).map (fun m => m.Index)).Pairwise (fun a b => a < b) ∧
    (∃ rs : List (List Track),
      tracks = p.Tracks.filter (fun t => t.Title != "") ++ rs.flatten ∧
      (missingOf p.Tracks = [] → rs = [] ∧ w2 = w1) ∧
      (missingOf p.Tracks ≠ [] →
        fetchBatches env (batches (missingOf p.Tracks)) w1 = (.ok rs, w2))) ∧
    (tracks ≠ [] → downloadPlaylist env path w = downloadTracks p.Permalink tracks w2) ∧
    (tracks = [] →
      downloadPlaylist env path w = (none, log "No tracks in playlist\n" w2)) := by
  refine ⟨?_, ?_, missingFrom_sorted p.Tracks 0, ?_, ?_, ?_⟩
  · rw [partitionLoop_eq]
    rfl
  · intro m
    unfold missingOf
    rw [mem_missingFrom]
    simp
  · by_cases hm : missingOf p.Tracks = []
    · refine ⟨[], ?_, fun _ => ⟨rfl, ?_⟩, fun h => absurd hm h⟩
      · rw [hm] at hback
        simp [backfill] at hback
        simp [hback.1]
      · rw [hm] at hback
        simp [backfill] at hback
        exact hback.2.symm
    · rw [backfill_eq_fetchBatches env _ _ w1 hm] at hback
      rcases hf : fetchBatches env (batches (missingOf p.Tracks)) w1 with ⟨r, w3⟩
      rw [hf] at hback
      cases r with
      | error err => simp at hback
      | ok rs =>
        simp only [Prod.mk.injEq, Except.ok.injEq] at hback
        obtain ⟨h1, h2⟩ := hback
        subst h1 h2
        exact ⟨rs, rfl, fun h => absurd h hm, fun _ => rfl⟩
  · intro hne
    rw [downloadPlaylist_unfold env path w p w1 hres hkind, hback]
    have : tracks.length ≠ 0 := fun h => hne (List.length_eq_zero.mp h)
    simp [this]
  · intro he
    rw [downloadPlaylist_unfold env path w p w1 hres hkind, hback]
    simp [he]

/-- C6, witness: of the playlist entries "one", an untitled entry with id 2, and "three",
the first and third are kept in order, the reference (2, 1) is backfilled, and the three
tracks are handed to `downloadTracks` in the order "one", "three", "two". -/
theorem downloadPlaylist_tracks_witness :
    missingOf samplePlaylist.Tracks = [⟨2, 1⟩] ∧
    (downloadPlaylist sampleEnv "ann/sets/mix" okWorld).1 = none ∧
    (downloadPlaylist sampleEnv "ann/sets/mix" okWorld).2.trace =
      [.http .api (resolveURI sampleEnv "ann/sets/mix"),
        .http .api (tracksURI sampleEnv [⟨2, 1⟩]),
        .log "Downloading 3 tracks\n",
        .mkdir "mix",
        .go "mix/" (sampleTrack 1 "one"),
        .go "mix/" (sampleTrack 3 "three"),
        .go "mix/" (sampleTrack 2 "two")] := by
  have hres : resolve sampleEnv sampleEnv.unmarshalPlaylist "ann/sets/mix" Playlist.zero okWorld =
      (.ok samplePlaylist,
        (resolve sampleEnv sampleEnv.unmarshalPlaylist "ann/sets/mix" Playlist.zero okWorld).2) :=
    rfl
  have hm : missingOf samplePlaylist.Tracks = [⟨2, 1⟩] := by decide
  have hback : backfill sampleEnv (missingOf samplePlaylist.Tracks)
      (samplePlaylist.Tracks.filter (fun t => t.Title != ""))
      (resolve sampleEnv sampleEnv.unmarshalPlaylist "ann/sets/mix" Playlist.zero okWorld).2 =
      (.ok [sampleTrack 1 "one", sampleTrack 3 "three", sampleTrack 2 "two"],
        (fetchBatches sampleEnv [[⟨2, 1⟩]]
          (resolve sampleEnv sampleEnv.unmarshalPlaylist "ann/sets/mix" Playlist.zero
            okWorld).2).2) := by
    rw [backfill_eq_fetchBatches _ _ _ _ (by rw [hm]; simp), hm, batches_le _ (by decide)]
    rfl
  have h := (downloadPlaylist_tracks sampleEnv "ann/sets/mix" okWorld samplePlaylist _ _ _
    hres rfl hback).2.2.2.2.1 (by simp)
  refine ⟨hm, ?_, ?_⟩
  · rw [h]
    rfl
  · rw [h]
    rfl

/-! ## Paginated.Proceed and the page loop of downloadUser -/

/-- One call of `Proceed` whose fetch succeeds with status 200 and whose page decodes. -/
theorem Proceed_step {T : Type} (env : Env)
    (unmarshal : Bytes → Paginated T → Except Error (Paginated T)) (fuel : Nat)
    (shouldUnfold : Bool) (p p1 : Paginated T) (w w1 : World) (resp : Response)
    (hfetch : doWithRetry .api (pageURI env p.Next) w = (.ok resp, w1))
    (hstatus : resp.status = 200)
    (hdecode : unmarshal resp.data p = .ok p1) :
    p.Proceed env unmarshal (fuel + 1) shouldUnfold w =
      if shouldUnfold && (clearStalled p.Next p1).Collection.length == 0 &&
          (clearStalled p.Next p1).Next != "" then
        (clearStalled p.Next p1).Proceed env unmarshal fuel true w1
      else some (.ok (clearStalled p.Next p1), w1) := by
  unfold pageURI at hfetch
  rw [Paginated.Proceed]
  simp only [hfetch, hstatus, bne_self_eq_false, Bool.false_eq_true, if_false, hdecode]
  rfl

/-- C5. Let a call of `Proceed` fetch the cursor `p.Next` successfully (status 200) and
decode the page `p1`, and let the cursor of `p1` be identical to the one just fetched.
Then, whatever `shouldUnfold` is and with fuel for a single call, `Proceed` returns the
decoded page with `Next` set to the empty string, in the world right after that one fetch:
it does not recurse.  The page loop of `downloadUser`, entered with that cursor, appends
the page (to the tracks appended before, as they show after the decoding) and stops in
that same world instead of fetching the cursor again. -/
theorem Proceed_stalled {T : Type} (env : Env)
    (unmarshal : Bytes → Paginated T → Except Error (Paginated T))
    (shared : Paginated T → List T → List T) (fuel : Nat)
    (shouldUnfold : Bool) (p p1 : Paginated T) (tracks : List T) (w w1 : World)
    (resp : Response)
    (hfetch : doWithRetry .api (pageURI env p.Next) w = (.ok resp, w1))
    (hstatus : resp.status = 200)
    (hdecode : unmarshal resp.data p = .ok p1)
    (hsame : p1.Next = p.Next) :
    p.Proceed env unmarshal (fuel + 1) shouldUnfold w =
      some (.ok { p1 with Next := "" }, w1) ∧
    (p.Next ≠ "" →
      pageLoop env unmarshal shared (fuel + 2) p tracks w =
        some (.ok (shared { p1 with Next := "" } tracks ++ p1.Collection), w1)) := by
  have hclear : clearStalled p.Next p1 = { p1 with Next := "" } := by
    simp [clearStalled, hsame]
  have hstep : ∀ (f : Nat) (b : Bool), p.Proceed env unmarshal (f + 1) b w =
      some (.ok { p1 with Next := "" }, w1) := by
    intro f b
    rw [Proceed_step env unmarshal f b p p1 w w1 resp hfetch hstatus hdecode, hclear]
    simp
  refine ⟨hstep fuel shouldUnfold, ?_⟩
  intro hnext
  rw [pageLoop]
  simp only [bne_iff_ne, ne_eq, hnext, not_false_eq_true, if_true, hstep (fuel + 1) true]
  rw [pageLoop]
  simp

/-- C5, witness: in a world whose every page repeats the cursor "again", the page loop
entered at "again" makes one fetch and stops with the (empty) page. -/
theorem Proceed_stalled_witness :
    ((⟨[], "again"⟩ : Paginated Track).Proceed echoEnv echoEnv.unmarshalPage 1 true okWorld).map
      (fun r => r.2.trace) = some [.http .api (pageURI echoEnv "again")] ∧
    (pageLoop echoEnv echoEnv.unmarshalPage echoEnv.sharedTracks 2 ⟨[], "again"⟩ []
        okWorld).map
        (fun r => r.2.trace) =
      some [.http .api (pageURI echoEnv "again")] := by
  have h := Proceed_stalled echoEnv echoEnv.unmarshalPage echoEnv.sharedTracks 0 true
    ⟨[], "again"⟩ ⟨[], "again"⟩ []
    okWorld (doWithRetry .api (pageURI echoEnv "again") okWorld).2 ⟨200, [0], none, ""⟩
    rfl rfl rfl rfl
  refine ⟨?_, ?_⟩
  · rw [h.1]
    rfl
  · rw [h.2 (by decide)]
    rfl

theorem Proceed_true_result {T : Type} (env : Env)
    (unmarshal : Bytes → Paginated T → Except Error (Paginated T)) :
    ∀ (fuel : Nat) (p : Paginated T) (w : World) (p2 : Paginated T) (w2 : World),
      p.Proceed env unmarshal fuel true w = some (.ok p2, w2) →
      p2.Collection ≠ [] ∨ p2.Next = "" := by
  intro fuel
  induction fuel with
  | zero =>
    intro p w p2 w2 h
    simp [Paginated.Proceed] at h
  | succ fuel ih =>
    intro p w p2 w2 h
    rcases hd : doWithRetry .api (pageURI env p.Next) w with ⟨r, w1⟩
    cases r with
    | error err =>
      unfold pageURI at hd
      simp [Paginated.Proceed, hd] at h
    | ok resp =>
      by_cases hs : resp.status = 200
      · cases hu : unmarshal resp.data p with
        | error err =>
          unfold pageURI at hd
          simp [Paginated.Proceed, hd, hs, hu] at h
        | ok p1 =>
          rw [Proceed_step env unmarshal fuel true p p1 w w1 resp hd hs hu] at h
          by_cases hc : (true && (clearStalled p.Next p1).Collection.length == 0 &&
              (clearStalled p.Next p1).Next != "") = true
          · rw [if_pos hc] at h
            exact ih _ _ _ _ h
          · rw [if_neg hc] at h
            simp only [Option.some.injEq, Prod.mk.injEq, Except.ok.injEq] at h
            obtain ⟨h1, _⟩ := h
            subst h1
            simp only [Bool.true_and, Bool.and_eq_true, beq_iff_eq, bne_iff_ne, ne_eq,
              not_and, not_not] at hc
            by_cases hl : (clearStalled p.Next p1).Collection = []
            · right
              exact hc (by simp [hl])
            · left
              exact hl
      · unfold pageURI at hd
        simp [Paginated.Proceed, hd, hs] at h

/-- More fuel does not change a result of `Proceed`. -/
theorem Proceed_fuel_succ {T : Type} (env : Env)
    (unmarshal : Bytes → Paginated T → Except Error (Paginated T)) :
    ∀ (fuel : Nat) (shouldUnfold : Bool) (p : Paginated T) (w : World)
      (r : Except Error (Paginated T) × World),
      p.Proceed env unmarshal fuel shouldUnfold w = some r →
      p.Proceed env unmarshal (fuel + 1) shouldUnfold w = some r := by
  intro fuel
  induction fuel with
  | zero =>
    intro b p w r h
    simp [Paginated.Proceed] at h
  | succ fuel ih =>
    intro b p w r h
    rw [Paginated.Proceed] at h ⊢
    generalize doWithRetry .api (utf8 (p.Next ++ "&client_id=" ++ env.cid)) w = x at h ⊢
    rcases x with ⟨d, w1⟩
    cases d with
    | error err => exact h
    | ok resp =>
      simp only at h ⊢
      by_cases hs : resp.status = 200
      · simp only [hs, bne_self_eq_false, Bool.false_eq_true, if_false] at h ⊢
        cases hu : unmarshal resp.data p with
        | error err =>
          rw [hu] at h
          exact h
        | ok p1 =>
          rw [hu] at h
          simp only at h ⊢
          generalize (if (p1.Next == p.Next) = true then { p1 with Next := "" } else p1) = p2
            at h ⊢
          by_cases hc : (b && p2.Collection.length == 0 && p2.Next != "") = true
          · rw [if_pos hc] at h ⊢
            exact ih _ _ _ _ h
          · rw [if_neg hc] at h ⊢
            exact h
      · have hs2 : (resp.status != 200) = true := by simpa using hs
        simp only [hs2, if_true] at h ⊢
        exact h

/-- More fuel does not change a result of the page loop. -/
theorem pageLoop_fuel_succ {T : Type} (env : Env)
    (unmarshal : Bytes → Paginated T → Except Error (Paginated T))
    (shared : Paginated T → List T → List T) :
    ∀ (fuel : Nat) (p : Paginated T) (tracks : List T) (w : World)
      (r : Except Error (List T) × World),
      pageLoop env unmarshal shared fuel p tracks w = some r →
      pageLoop env unmarshal shared (fuel + 1) p tracks w = some r := by
  intro fuel
  induction fuel with
  | zero =>
    intro p tracks w r h
    simp [pageLoop] at h
  | succ fuel ih =>
    intro p tracks w r h
    rw [pageLoop] at h ⊢
    by_cases hn : (p.Next != "") = true
    · simp only [hn, if_true] at h ⊢
      cases hp : p.Proceed env unmarshal (fuel + 1) true w with
      | none => rw [hp] at h; simp at h
      | some x =>
        rw [Proceed_fuel_succ env unmarshal (fuel + 1) true p w x hp]
        rw [hp] at h
        rcases x with ⟨d, w1⟩
        cases d with
        | error err => exact h
        | ok p1 => exact ih _ _ _ _ h
    · simp only [hn, Bool.false_eq_true, if_false] at h ⊢
      exact h

/-- C8. A call of `Proceed` with `shouldUnfold` true that returns without error returns a
page with a non-empty collection or an empty next cursor.  With `shouldUnfold` false, a
call whose fetch succeeds with status 200 and whose page decodes returns that first page
(its cursor cleared when stalled) in the world right after the one fetch, whether or not
its collection is empty. -/
theorem Proceed_unfold {T : Type} (env : Env)
    (unmarshal : Bytes → Paginated T → Except Error (Paginated T)) :
    (∀ (fuel : Nat) (p : Paginated T) (w : World) (p2 : Paginated T) (w2 : World),
      p.Proceed env unmarshal fuel true w = some (.ok p2, w2) →
      p2.Collection ≠ [] ∨ p2.Next = "") ∧
    (∀ (fuel : Nat) (p p1 : Paginated T) (w w1 : World) (resp : Response),
      doWithRetry .api (pageURI env p.Next) w = (.ok resp, w1) →
      resp.status = 200 →
      unmarshal resp.data p = .ok p1 →
      p.Proceed env unmarshal (fuel + 1) false w =
        some (.ok (if p1.Next = p.Next then { p1 with Next := "" } else p1), w1)) := by
  refine ⟨Proceed_true_result env unmarshal, ?_⟩
  intro fuel p p1 w w1 resp hd hs hu
  rw [Proceed_step env unmarshal fuel false p p1 w w1 resp hd hs hu]
  simp [clearStalled]

/-- C8, witness: the first page is empty with the fresh cursor "next" and the second holds
the track "nine".  With `shouldUnfold` true the call goes on to the second page and
returns it after two fetches; with `shouldUnfold` false it returns the empty first page
with its cursor. -/
theorem Proceed_unfold_witness :
    (⟨[], "start"⟩ : Paginated Track).Proceed sampleEnv sampleEnv.unmarshalPage 2 true okWorld =
      some (.ok ⟨[sampleTrack 9 "nine"], ""⟩,
        okWorld.after [.http .api (pageURI sampleEnv "start"),
          .http .api (pageURI sampleEnv "next")]) ∧
    ([sampleTrack 9 "nine"] ≠ [] ∨ "" = "") ∧
    (⟨[], "start"⟩ : Paginated Track).Proceed sampleEnv sampleEnv.unmarshalPage 1 false okWorld =
      some (.ok ⟨[], "next"⟩, okWorld.after [.http .api (pageURI sampleEnv "start")]) := by
  have hrun : (⟨[], "start"⟩ : Paginated Track).Proceed sampleEnv sampleEnv.unmarshalPage 2 true
      okWorld =
      some (.ok ⟨[sampleTrack 9 "nine"], ""⟩,
        okWorld.after [.http .api (pageURI sampleEnv "start"),
          .http .api (pageURI sampleEnv "next")]) := rfl
  refine ⟨hrun, ?_, ?_⟩
  · exact (Proceed_unfold sampleEnv sampleEnv.unmarshalPage).1 2 ⟨[], "start"⟩ okWorld
      ⟨[sampleTrack 9 "nine"], ""⟩ _ hrun
  · rw [(Proceed_unfold sampleEnv sampleEnv.unmarshalPage).2 0 ⟨[], "start"⟩ ⟨[], "next"⟩
      okWorld (okWorld.after [.http .api (pageURI sampleEnv "start")]) ⟨200, [0], none, ""⟩
      rfl rfl rfl]
    rfl

/-! ## Status codes -/

/-- The three calls that look at the status code: when the transport succeeds and the
status is not 200, each returns its status error, whatever the body and the decoder. -/
theorem status_checked (env : Env) (w w1 : World) (resp : Response)
    (hstatus : resp.status ≠ 200) :
    (∀ {α : Type} (unmarshal : Bytes → α → Except Error α) (path : String) (out : α),
      doWithRetry .api (resolveURI env path) w = (.ok resp, w1) →
      resolve env unmarshal path out w = (.error (.statusCode "resolve" resp.status), w1)) ∧
    (∀ (tr : Transcoding) (authorization : String),
      doWithRetry .api
        (utf8 (tr.URL ++ "?client_id=" ++ env.cid ++ "&track_authorization=" ++ authorization))
        w = (.ok resp, w1) →
      tr.GetStream env authorization w = (.error (.statusCode "getstream" resp.status), w1)) ∧
    (∀ {T : Type} (unmarshal : Bytes → Paginated T → Except Error (Paginated T)) (fuel : Nat)
      (shouldUnfold : Bool) (p : Paginated T),
      doWithRetry .api (pageURI env p.Next) w = (.ok resp, w1) →
      p.Proceed env unmarshal (fuel + 1) shouldUnfold w =
        some (.error (.statusCode "paginated.proceed" resp.status), w1)) := by
  refine ⟨?_, ?_, ?_⟩
  · intro α unmarshal path out h
    unfold resolveURI at h
    unfold resolve
    rw [h]
    simp [hstatus]
  · intro tr authorization h
    unfold Transcoding.GetStream
    rw [h]
    simp [hstatus]
  · intro T unmarshal fuel shouldUnfold p h
    unfold pageURI at h
    rw [Paginated.Proceed]
    simp only [h]
    simp [hstatus]

/-- C7. The batch fetch `getTracks` does not look at the status code: on a response with
status 500 whose body is the JSON text `[]` it returns the decoded (empty) track list and
no error, where `resolve`, on the same response, returns its status error. -/
theorem getTracks_ignores_status :
    (getTracks arrayEnv "2" status500World).1 = .ok [] ∧
    (resolve arrayEnv arrayEnv.unmarshalPlaylist "ann/sets/mix" Playlist.zero
      status500World).1 = .error (.statusCode "resolve" 500) := by
  constructor <;> rfl

/-! ## Kind checks -/

theorem resolve_trace {α : Type} (env : Env) (unmarshal : Bytes → α → Except Error α)
    (path : String) (out : α) (w : World) :
    ∃ k, 1 ≤ k ∧ k ≤ 10 ∧
      (resolve env unmarshal path out w).2 =
        w.after (List.replicate k (.http .api (resolveURI env path))) := by
  obtain ⟨k, h1, h10, heq⟩ := doWithRetry_trace .api (resolveURI env path) w
  refine ⟨k, h1, h10, ?_⟩
  rw [← heq]
  unfold resolve resolveURI
  rcases doWithRetry .api
    (utf8 ("https://" ++ api ++ "/resolve?url=https%3A%2F%2Fsoundcloud.com%2F" ++
      env.QueryEscape path ++ "&client_id=" ++ env.cid)) w with ⟨r, w1⟩
  cases r with
  | error err => rfl
  | ok resp =>
    by_cases hs : resp.status = 200
    · simp [hs]
    · simp [hs]

/-- C9. When `resolve` succeeds and the kind tag of the decoded entity is not the one the
operation expects, each of `downloadByPath`, `downloadPlaylist` and `downloadUser` returns
`ErrKindNotCorrect` in the world `resolve` left behind; and the events `resolve` adds to
the trace are between one and ten attempts at the resolve request.  So the trace holds no
batch fetch, no page fetch, no directory creation and no download. -/
theorem kind_mismatch (env : Env) (path : String) (w : World) :
    (∀ (basePath : String) (t : Track) (w1 : World),
      resolve env env.unmarshalTrack path Track.zero w = (.ok t, w1) → t.Kind ≠ "track" →
      downloadByPath env basePath path w = (some .ErrKindNotCorrect, w1)) ∧
    (∀ (p : Playlist) (w1 : World),
      resolve env env.unmarshalPlaylist path Playlist.zero w = (.ok p, w1) →
      p.Kind ≠ "playlist" →
      downloadPlaylist env path w = (some .ErrKindNotCorrect, w1)) ∧
    (∀ (fuel : Nat) (u : User) (w1 : World),
      resolve env env.unmarshalUser path User.zero w = (.ok u, w1) → u.Kind ≠ "user" →
      downloadUser env fuel path w = some (some .ErrKindNotCorrect, w1)) ∧
    (∀ {α : Type} (unmarshal : Bytes → α → Except Error α) (out : α),
      ∃ k, 1 ≤ k ∧ k ≤ 10 ∧
        (resolve env unmarshal path out w).2 =
          w.after (List.replicate k (.http .api (resolveURI env path)))) := by
  refine ⟨?_, ?_, ?_, fun unmarshal out => resolve_trace env unmarshal path out w⟩
  · intro basePath t w1 h hk
    unfold downloadByPath
    rw [h]
    simp [hk]
  · intro p w1 h hk
    unfold downloadPlaylist
    rw [h]
    simp [hk]
  · intro fuel u w1 h hk
    unfold downloadUser
    rw [h]
    simp [hk]

/-- C9, witness: an entity of kind "track" given to `downloadPlaylist` yields
`ErrKindNotCorrect` after the one resolve request and nothing else. -/
theorem kind_mismatch_witness :
    downloadPlaylist trackEnv "ann/song" okWorld =
      (some .ErrKindNotCorrect, okWorld.after [.http .api (resolveURI trackEnv "ann/song")]) := by
  exact (kind_mismatch trackEnv "ann/song" okWorld).2.1 ⟨"song", [], "track"⟩ _ rfl (by decide)

/-! ## Path normalisation in main -/

/-- The normalisation of lines 659-662 runs without a panic exactly on parsed paths of at
least two bytes. -/
theorem mainPath_isSome (parsedPath : Bytes) :
    (mainPath parsedPath).isSome = true ↔ 2 ≤ parsedPath.length := by
  unfold mainPath sliceFrom
  by_cases h1 : 1 ≤ parsedPath.length
  · have hc : (0 : Int) ≤ 1 ∧ (1 : Int) ≤ (parsedPath.length : Int) := ⟨by decide, by omega⟩
    simp only [hc, and_self, if_true]
    unfold byteAt
    by_cases h2 : 2 ≤ parsedPath.length
    · have hlen : (parsedPath.drop (Int.toNat 1)).length = parsedPath.length - 1 := by simp
      have hi : (0 : Int) ≤ ((parsedPath.drop (Int.toNat 1)).length : Int) - 1 ∧
          ((parsedPath.drop (Int.toNat 1)).length : Int) - 1 <
            ((parsedPath.drop (Int.toNat 1)).length : Int) := by
        rw [hlen]; omega
      simp only [hi, and_self, if_true]
      have hget : ((((parsedPath.drop (Int.toNat 1)).length : Int) - 1).toNat) <
          (parsedPath.drop (Int.toNat 1)).length := by
        rw [hlen]; omega
      rw [List.get?_eq_get hget]
      simp only [h2, iff_true]
      split
      · unfold sliceTo
        have hj : (0 : Int) ≤ ((parsedPath.drop (Int.toNat 1)).length : Int) - 1 ∧
            ((parsedPath.drop (Int.toNat 1)).length : Int) - 1 ≤
              ((parsedPath.drop (Int.toNat 1)).length : Int) := ⟨hi.1, by omega⟩
        simp only [hj, and_self, if_true, Option.isSome_some]
      · rfl
    · have hlen : (parsedPath.drop (Int.toNat 1)).length = 0 := by simp; omega
      have hi : ¬ ((0 : Int) ≤ ((parsedPath.drop (Int.toNat 1)).length : Int) - 1 ∧
          ((parsedPath.drop (Int.toNat 1)).length : Int) - 1 <
            ((parsedPath.drop (Int.toNat 1)).length : Int)) := by
        rw [hlen]; omega
      simp only [hi, if_false, h2, iff_false]
      simp
  · have hc : ¬ ((0 : Int) ≤ 1 ∧ (1 : Int) ≤ (parsedPath.length : Int)) := by omega
    simp only [hc, if_false]
    simp
    omega

/-- C10. The path normalisation of `main` panics on the empty parsed path (the slice
`parsed.Path[1:]` is out of range) and on the parsed path `/` (the index `len(path)-1` is
-1); it goes through on `/a`. -/
theorem mainPath_panics :
    mainPath [] = none ∧ mainPath (utf8 "/") = none ∧
    mainPath (utf8 "/a") = some (utf8 "a") := by
  decide

end Scrip
